import Mathlib

/-!
# Invoice model of go-centrifuge: data root, field proofs, pack / unpack, version chain

A shallow embedding of `centrifuge/invoice/invoice.go`, and of the update helper of
`centrifuge/documents/purchaseorder/service_test.go` over the purchase order service as
the spec and the tests describe it.

* Go pointers that may be nil are `Option`s; a nil `[]byte` and an empty one are both `[]`.
* A Go `error` is its message; `none` is the nil error.
* A call either returns, or ends the process through `log.Fatal`, or panics on a nil
  pointer: the three constructors of `Outcome`.
* Methods with a pointer receiver that assign to the receiver return the receiver's new state.
* The libraries the file imports (precise-proofs, golang/protobuf, the generated protobuf
  types and the type URL constants) are not part of the repository: they are the fields of
  `Externals`, and every definition below takes them as a parameter.  A library call is a
  function of its arguments; the entropy `FillSalts` draws is an explicit argument.
* `log.Error` only writes to the log and is left out.
-/

namespace Centrifuge

/-- A Go byte slice. -/
abbrev Bytes := List Nat

/-- A Go error value, identified with its message. -/
abbrev GoError := String

/-- How a call ends. -/
inductive Outcome (α : Type) where
  /-- The call returns to its caller with a value. -/
  | returned (a : α)
  /-- The call logs at fatal level, which exits the process. -/
  | fatal (msg : String)
  /-- The call dereferences a nil pointer, which panics. -/
  | nilPanic
  deriving DecidableEq, Repr

/-- Whether the call ended the process through a fatal log. -/
def Outcome.isFatal {α : Type} : Outcome α → Bool
  | .fatal _ => true
  | _ => false

/-- Whether the call came back to its caller. -/
def Outcome.isReturned {α : Type} : Outcome α → Bool
  | .returned _ => true
  | _ => false

namespace any

/-- The protobuf `Any` message: a type URL and the serialized value. -/
structure Any where
  TypeUrl : String := ""
  Value : Bytes := []
  deriving DecidableEq, Repr

end any

namespace coredocumentpb

/-- Modelled from the spec: one entry of the signature list (section 3),
`(signerID, publicKey, signatureBytes, timestamp)`; the generated type is not in the
repository. -/
structure Signature where
  EntityId : Bytes := []
  PublicKey : Bytes := []
  SignatureBytes : Bytes := []
  Timestamp : Nat := 0
  deriving DecidableEq, Repr

/-- Modelled from the spec: the core document message (section 3); the generated type is not
in the repository.  The field names are the ones the repository's code uses. -/
structure CoreDocument where
  DocumentIdentifier : Bytes := []
  CurrentVersion : Bytes := []
  NextVersion : Bytes := []
  PreviousVersion : Bytes := []
  DataRoot : Bytes := []
  SigningRoot : Bytes := []
  DocumentRoot : Bytes := []
  Collaborators : List Bytes := []
  Signatures : List Signature := []
  EmbeddedData : Option any.Any := none
  EmbeddedDataSalts : Option any.Any := none
  deriving DecidableEq, Repr

end coredocumentpb

namespace coredocument

/-- The wrapper `coredocument.CoreDocument` of the repository: a pointer to the message. -/
structure CoreDocument where
  Document : Option coredocumentpb.CoreDocument
  deriving DecidableEq, Repr

end coredocument

namespace proto

/-- Merging a singular proto3 bytes field: a set (non-empty) source overwrites. -/
def mergeBytes (dst src : Bytes) : Bytes :=
  if src = [] then dst else src

/-- Merging a singular proto3 string field: a set (non-empty) source overwrites. -/
def mergeString (dst src : String) : String :=
  if src = "" then dst else src

/-- The merge `proto.Merge` does on two `Any` messages. -/
def MergeAny (dst src : any.Any) : any.Any :=
  { TypeUrl := mergeString dst.TypeUrl src.TypeUrl
    Value := mergeBytes dst.Value src.Value }

/-- Merging a message field: a nil source is skipped, a nil destination is allocated. -/
def mergeAnyField (dst src : Option any.Any) : Option any.Any :=
  match src with
  | none => dst
  | some a => some (MergeAny (dst.getD {}) a)

/-- The field-wise merge `proto.Merge(dst, src)` on core documents: set singular fields of
`src` overwrite, repeated fields are appended, message fields are merged; a nil `src` is a
no-op. -/
def Merge (dst : coredocumentpb.CoreDocument) (src : Option coredocumentpb.CoreDocument) :
    coredocumentpb.CoreDocument :=
  match src with
  | none => dst
  | some s =>
    { DocumentIdentifier := mergeBytes dst.DocumentIdentifier s.DocumentIdentifier
      CurrentVersion := mergeBytes dst.CurrentVersion s.CurrentVersion
      NextVersion := mergeBytes dst.NextVersion s.NextVersion
      PreviousVersion := mergeBytes dst.PreviousVersion s.PreviousVersion
      DataRoot := mergeBytes dst.DataRoot s.DataRoot
      SigningRoot := mergeBytes dst.SigningRoot s.SigningRoot
      DocumentRoot := mergeBytes dst.DocumentRoot s.DocumentRoot
      Collaborators := dst.Collaborators ++ s.Collaborators
      Signatures := dst.Signatures ++ s.Signatures
      EmbeddedData := mergeAnyField dst.EmbeddedData s.EmbeddedData
      EmbeddedDataSalts := mergeAnyField dst.EmbeddedDataSalts s.EmbeddedDataSalts }

end proto

namespace proofs

/-- Modelled from the spec: a field proof (section 3), property name, value, salt and the
sorted sibling hash path; the precise-proofs type is not in the repository. -/
structure Proof where
  Property : String
  Value : Bytes
  Salt : Bytes
  SortedHashes : List Bytes
  deriving DecidableEq, Repr

end proofs

/-- The library operations `invoice.go` calls, over the payload type `D`
(`invoicepb.InvoiceData`), the salts type `S` (`invoicepb.InvoiceDataSalts`) and the tree
type `T` (`proofs.DocumentTree`). -/
structure Externals (D S T : Type) where
  /-- The constant `documenttypes.InvoiceDataTypeUrl`. -/
  InvoiceDataTypeUrl : String
  /-- The constant `documenttypes.InvoiceSaltsTypeUrl`. -/
  InvoiceSaltsTypeUrl : String
  /-- The zero message `invoicepb.InvoiceData{}`. -/
  zeroData : D
  /-- The zero message `invoicepb.InvoiceDataSalts{}`. -/
  zeroSalts : S
  /-- The salts message after `proofs.FillSalts` filled it from the given entropy. -/
  FillSalts : Bytes → S → S
  /-- The tree `proofs.NewDocumentTree()` returns. -/
  NewDocumentTree : T
  /-- The tree after `SetHashFunc(sha256.New())`. -/
  SetHashFunc : T → T
  /-- The tree after `FillTree(data, salts)`, and the error it returns. -/
  FillTree : T → Option D → Option S → T × Option GoError
  /-- The root hash `RootHash()` reports. -/
  RootHash : T → Bytes
  /-- The proof `CreateProof(field)` returns, or its error. -/
  CreateProof : T → String → Except GoError proofs.Proof
  /-- The bytes `proto.Marshal` returns for a payload pointer, or its error. -/
  MarshalData : Option D → Except GoError Bytes
  /-- The bytes `proto.Marshal` returns for a salts pointer, or its error. -/
  MarshalSalts : Option S → Except GoError Bytes
  /-- The target message after `proto.Unmarshal(buf, target)`, and the error it returns. -/
  UnmarshalData : Bytes → D → D × Option GoError
  /-- The target message after `proto.Unmarshal(buf, target)`, and the error it returns. -/
  UnmarshalSalts : Bytes → S → S × Option GoError

namespace invoicepb

/-- The message `invoicepb.InvoiceDocument`: three pointers. -/
structure InvoiceDocument (D S : Type) where
  CoreDocument : Option coredocumentpb.CoreDocument
  Data : Option D
  Salts : Option S
  deriving DecidableEq, Repr

end invoicepb

/-- The type `Invoice` of `invoice.go`. -/
structure Invoice (D S : Type) where
  Document : Option (invoicepb.InvoiceDocument D S)
  deriving DecidableEq, Repr

section Code

variable {D S T : Type}

/-- The function `NewInvoice`: wraps the document, generating salts when it has none. -/
def NewInvoice (X : Externals D S T) (rnd : Bytes)
    (invDoc : Option (invoicepb.InvoiceDocument D S)) : Outcome (Invoice D S) :=
  match invDoc with
  | none => .nilPanic
  | some doc =>
    match doc.Salts with
    | none =>
      let invoiceSalts := X.FillSalts rnd X.zeroSalts
      .returned { Document := some { doc with Salts := some invoiceSalts } }
    | some _ => .returned { Document := some doc }

/-- The function `NewEmptyInvoice`. -/
def NewEmptyInvoice (X : Externals D S T) (rnd : Bytes) : Invoice D S :=
  let invoiceSalts := X.FillSalts rnd X.zeroSalts
  let doc : invoicepb.InvoiceDocument D S :=
    { CoreDocument := some {}
      Data := some X.zeroData
      Salts := some invoiceSalts }
  { Document := some doc }

/-- The message `log.Fatal` writes on a type URL mismatch. -/
def incorrectSchemaMsg : String := "Trying to convert document with incorrect schema"

/-- The function `NewInvoiceFromCoreDocument`.  The two `proto.Unmarshal` calls keep the
target message and drop the returned error, as the source does. -/
def NewInvoiceFromCoreDocument (X : Externals D S T) (rnd : Bytes)
    (coredocument : Option coredocument.CoreDocument) : Outcome (Invoice D S) :=
  match coredocument with
  | none => .nilPanic
  | some cd =>
  match cd.Document with
  | none => .nilPanic
  | some doc =>
  match doc.EmbeddedData with
  | none => .nilPanic
  | some embeddedData =>
  if embeddedData.TypeUrl ≠ X.InvoiceDataTypeUrl then .fatal incorrectSchemaMsg
  else
  match doc.EmbeddedDataSalts with
  | none => .nilPanic
  | some embeddedDataSalts =>
  if embeddedDataSalts.TypeUrl ≠ X.InvoiceSaltsTypeUrl then .fatal incorrectSchemaMsg
  else
    let invoiceData := (X.UnmarshalData embeddedData.Value X.zeroData).1
    let invoiceSalts := (X.UnmarshalSalts embeddedDataSalts.Value X.zeroSalts).1
    let emptiedCoreDoc := proto.Merge {} (some doc)
    let emptiedCoreDoc := { emptiedCoreDoc with EmbeddedData := none, EmbeddedDataSalts := none }
    let inv := NewEmptyInvoice X rnd
    match inv.Document with
    | none => .nilPanic
    | some d =>
      let d := { d with Data := some invoiceData }
      let d := { d with Salts := some invoiceSalts }
      let d := { d with CoreDocument := some emptiedCoreDoc }
      .returned { Document := some d }

/-- The method `Invoice.getDocumentTree`: a fresh tree with the SHA-256 hash function,
filled from the invoice's data and salts. -/
def Invoice.getDocumentTree (X : Externals D S T) (inv : Invoice D S) :
    Outcome (Except GoError T) :=
  match inv.Document with
  | none => .nilPanic
  | some doc =>
    let t := X.NewDocumentTree
    let t := X.SetHashFunc t
    match X.FillTree t doc.Data doc.Salts with
    | (_, some err) => .returned (.error err)
    | (t, none) => .returned (.ok t)

/-- The method `Invoice.CalculateMerkleRoot`: the invoice after the call and the returned
error. -/
def Invoice.CalculateMerkleRoot (X : Externals D S T) (inv : Invoice D S) :
    Outcome (Invoice D S × Option GoError) :=
  match inv.getDocumentTree X with
  | .nilPanic => .nilPanic
  | .fatal m => .fatal m
  | .returned (.error err) => .returned (inv, some err)
  | .returned (.ok tree) =>
    match inv.Document with
    | none => .nilPanic
    | some doc =>
      match doc.CoreDocument with
      | none => .nilPanic
      | some cd =>
        let cd := { cd with DocumentRoot := X.RootHash tree }
        .returned ({ Document := some { doc with CoreDocument := some cd } }, none)

/-- The loop of `Invoice.CreateProofs`: `acc` is the slice `proofs` built so far. -/
def Invoice.CreateProofs.loop (X : Externals D S T) (tree : T) :
    List String → List proofs.Proof → List proofs.Proof × Option GoError
  | [], acc => (acc, none)
  | field :: rest, acc =>
    match X.CreateProof tree field with
    | .error err => ([], some err)
    | .ok proof => Invoice.CreateProofs.loop X tree rest (acc ++ [proof])

/-- The method `Invoice.CreateProofs`: the returned slice of proofs and the returned
error.  The method assigns nothing in the invoice. -/
def Invoice.CreateProofs (X : Externals D S T) (inv : Invoice D S) (fields : List String) :
    Outcome (List proofs.Proof × Option GoError) :=
  match inv.getDocumentTree X with
  | .nilPanic => .nilPanic
  | .fatal m => .fatal m
  | .returned (.error err) => .returned ([], some err)
  | .returned (.ok tree) => .returned (Invoice.CreateProofs.loop X tree fields [])

/-- The method `Invoice.ConvertToCoreDocument`. -/
def Invoice.ConvertToCoreDocument (X : Externals D S T) (inv : Invoice D S) :
    Outcome coredocument.CoreDocument :=
  match inv.Document with
  | none => .nilPanic
  | some doc =>
    let coredocpb := proto.Merge {} doc.CoreDocument
    match X.MarshalData doc.Data with
    | .error err => .fatal ("Could not serialize InvoiceData: " ++ err)
    | .ok serializedInvoice =>
      let invoiceAny : any.Any :=
        { TypeUrl := X.InvoiceDataTypeUrl, Value := serializedInvoice }
      match X.MarshalSalts doc.Salts with
      | .error err => .fatal ("Could not serialize InvoiceSalts: " ++ err)
      | .ok serializedSalts =>
        let invoiceSaltsAny : any.Any :=
          { TypeUrl := X.InvoiceSaltsTypeUrl, Value := serializedSalts }
        let coredocpb :=
          { coredocpb with EmbeddedData := some invoiceAny,
                           EmbeddedDataSalts := some invoiceSaltsAny }
        .returned { Document := some coredocpb }

end Code

/-- Modelled from the spec: what the spec promises of the salted field tree (sections 4.1
and 8), stated for the library operations `X` with the payload's field enumeration
`fieldNames` and the verifier `verifyField`; the precise-proofs library, the verifier
included, is not in the repository.  A tree filled from a payload proves every field of
the payload, the proof of a name carries that name, and a proof verifies against the root
hash of the tree it came from. -/
structure SaltedFieldTreeContract {D S T : Type} (X : Externals D S T)
    (fieldNames : D → List String) (verifyField : proofs.Proof → Bytes → Bool) : Prop where
  /-- Every field of the payload is a leaf of the tree filled from it. -/
  field_is_leaf : ∀ (t : T) (d : D) (s : Option S) (tree : T),
    X.FillTree t (some d) s = (tree, none) →
    ∀ f ∈ fieldNames d, ∃ p, X.CreateProof tree f = .ok p
  /-- The proof of a name has that name as its property. -/
  property_eq : ∀ (tree : T) (f : String) (p : proofs.Proof),
    X.CreateProof tree f = .ok p → p.Property = f
  /-- A proof verifies against the root hash of its tree. -/
  round_trip : ∀ (tree : T) (f : String) (p : proofs.Proof),
    X.CreateProof tree f = .ok p → verifyField p (X.RootHash tree) = true

namespace merkle

/-- The bytes of a property name. -/
def strBytes (s : String) : Bytes := s.toList.map Char.toNat

/-- Lexicographic comparison of two hashes, the order sorted-pair hashing uses. -/
def lexLe : Bytes → Bytes → Bool
  | [], _ => true
  | _ :: _, [] => false
  | a :: as, b :: bs => if a < b then true else if b < a then false else lexLe as bs

/-- Modelled from the spec: sorted-pair hashing (section 4.1), the two hashes are
concatenated in sorted order and hashed; the precise-proofs library is not in the
repository.  `H` is the hash function. -/
def hashPair (H : Bytes → Bytes) (a b : Bytes) : Bytes :=
  if lexLe a b then H (a ++ b) else H (b ++ a)

/-- Modelled from the spec: the hash of one `(fieldName, value, salt)` leaf (section 4.1). -/
def leafHash (H : Bytes → Bytes) (property : String) (value salt : Bytes) : Bytes :=
  H (strBytes property ++ value ++ salt)

/-- Modelled from the spec: the binary Merkle structure over the salted leaves
(section 4.1). -/
inductive FieldTree where
  | leaf (property : String) (value salt : Bytes)
  | node (l r : FieldTree)
  deriving DecidableEq, Repr

/-- Modelled from the spec: the hash of a subtree; the hash of the whole tree is
`Tree.rootHash()` (section 4.1). -/
def FieldTree.hash (H : Bytes → Bytes) : FieldTree → Bytes
  | .leaf p v s => leafHash H p v s
  | .node l r => hashPair H (l.hash H) (r.hash H)

/-- The property names of the leaves, left to right. -/
def FieldTree.names : FieldTree → List String
  | .leaf p _ _ => [p]
  | .node l r => l.names ++ r.names

/-- Modelled from the spec: `Tree.proveField(name)` (section 4.1), the revealed leaf and
the sibling hashes from the leaf up to the root; `none` when no leaf has that name. -/
def FieldTree.proveField (H : Bytes → Bytes) : FieldTree → String → Option proofs.Proof
  | .leaf p v s, name =>
    if p = name then some { Property := p, Value := v, Salt := s, SortedHashes := [] }
    else none
  | .node l r, name =>
    match l.proveField H name with
    | some pf => some { pf with SortedHashes := pf.SortedHashes ++ [r.hash H] }
    | none =>
      match r.proveField H name with
      | some pf => some { pf with SortedHashes := pf.SortedHashes ++ [l.hash H] }
      | none => none

/-- Modelled from the spec: `Tree.verifyField(proof, expectedRoot)` (section 4.1), the
leaf hash is combined with each sibling in turn and the result compared with the root. -/
def verifyField (H : Bytes → Bytes) (proof : proofs.Proof) (expectedRoot : Bytes) : Bool :=
  decide (proof.SortedHashes.foldl (hashPair H)
    (leafHash H proof.Property proof.Value proof.Salt) = expectedRoot)

/-- One level of the tree construction: neighbours are paired, an odd last node is kept. -/
def pairUp : List FieldTree → List FieldTree
  | a :: b :: rest => .node a b :: pairUp rest
  | l => l

/-- Modelled from the spec: `buildTree` (section 4.1), levels are paired until one node is
left; `none` for no leaves.  The first argument bounds the number of levels. -/
def build : Nat → List FieldTree → Option FieldTree
  | _, [] => none
  | _, [t] => some t
  | 0, _ :: _ :: _ => none
  | n + 1, a :: b :: rest => build n (pairUp (a :: b :: rest))

/-- The bytes of the property name a subtree starts with, the key leaves are ordered by. -/
def FieldTree.key : FieldTree → Bytes
  | .leaf p _ _ => strBytes p
  | .node l _ => l.key

end merkle

/-! ## A small instance of the libraries -/

namespace sample

/-- A two-field payload standing in for `invoicepb.InvoiceData`. -/
structure InvoiceData where
  InvoiceNumber : Bytes := []
  GrossAmount : Nat := 0
  deriving DecidableEq, Repr

/-- The salts of the two-field payload, one per field. -/
structure InvoiceDataSalts where
  InvoiceNumber : Bytes := []
  GrossAmount : Bytes := []
  deriving DecidableEq, Repr

/-- A small polynomial checksum standing in for SHA-256. -/
def hash (bs : Bytes) : Bytes :=
  [bs.foldl (fun acc b => (acc * 31 + b) % 65521) 7]

/-- The property names of the payload's fields. -/
def fieldNames (_ : InvoiceData) : List String := ["gross_amount", "invoice_number"]

/-- The salted leaves of a payload, in property order. -/
def leaves (d : InvoiceData) (s : InvoiceDataSalts) : List merkle.FieldTree :=
  [.leaf "gross_amount" [d.GrossAmount] s.GrossAmount,
   .leaf "invoice_number" d.InvoiceNumber s.InvoiceNumber]

/-- Filling the tree: both messages must be present. -/
def FillTree (t : Option merkle.FieldTree) (d : Option InvoiceData)
    (s : Option InvoiceDataSalts) : Option merkle.FieldTree × Option GoError :=
  match d, s with
  | some d, some s => (merkle.build (leaves d s).length (leaves d s), none)
  | _, _ => (t, some "nil message")

/-- The root hash of a filled tree; nil for an empty one. -/
def RootHash (t : Option merkle.FieldTree) : Bytes :=
  match t with
  | none => []
  | some tree => tree.hash hash

/-- The proof of a field, or the library's error for an unknown name. -/
def CreateProof (t : Option merkle.FieldTree) (field : String) : Except GoError proofs.Proof :=
  match t with
  | none => .error "tree is empty"
  | some tree =>
    match tree.proveField hash field with
    | some pf => .ok pf
    | none => .error ("No such field: " ++ field ++ " in obj")

/-- A length-prefixed wire format for the payload. -/
def encodeData (d : InvoiceData) : Bytes :=
  d.InvoiceNumber.length :: (d.InvoiceNumber ++ [d.GrossAmount])

/-- Decoding the payload: the target is reset, then filled as far as the bytes reach. -/
def decodeData (buf : Bytes) (_target : InvoiceData) : InvoiceData × Option GoError :=
  match buf with
  | [] => ({}, none)
  | n :: rest =>
    if rest.length < n then ({}, some "unexpected EOF")
    else
      match rest.drop n with
      | [amount] => ({ InvoiceNumber := rest.take n, GrossAmount := amount }, none)
      | _ => ({ InvoiceNumber := rest.take n }, some "unexpected EOF")

/-- A length-prefixed wire format for the salts. -/
def encodeSalts (s : InvoiceDataSalts) : Bytes :=
  s.InvoiceNumber.length :: (s.InvoiceNumber ++ s.GrossAmount)

/-- Decoding the salts: the target is reset, then filled as far as the bytes reach. -/
def decodeSalts (buf : Bytes) (_target : InvoiceDataSalts) :
    InvoiceDataSalts × Option GoError :=
  match buf with
  | [] => ({}, none)
  | n :: rest =>
    if rest.length < n then ({}, some "unexpected EOF")
    else ({ InvoiceNumber := rest.take n, GrossAmount := rest.drop n }, none)

/-- Serializing a payload pointer: a nil pointer is an error. -/
def MarshalData (d : Option InvoiceData) : Except GoError Bytes :=
  match d with
  | none => .error "proto: Marshal called with nil"
  | some d => .ok (encodeData d)

/-- Serializing a salts pointer: a nil pointer is an error. -/
def MarshalSalts (s : Option InvoiceDataSalts) : Except GoError Bytes :=
  match s with
  | none => .error "proto: Marshal called with nil"
  | some s => .ok (encodeSalts s)

/-- Filling the salts from entropy: each field takes the next 32 bytes. -/
def FillSalts (rnd : Bytes) (_s : InvoiceDataSalts) : InvoiceDataSalts :=
  { InvoiceNumber := rnd.take 32, GrossAmount := (rnd.drop 32).take 32 }

/-- The sample libraries. -/
def externals : Externals InvoiceData InvoiceDataSalts (Option merkle.FieldTree) where
  InvoiceDataTypeUrl := "invoice.InvoiceData"
  InvoiceSaltsTypeUrl := "invoice.InvoiceDataSalts"
  zeroData := {}
  zeroSalts := {}
  FillSalts := FillSalts
  NewDocumentTree := none
  SetHashFunc := fun t => t
  FillTree := FillTree
  RootHash := RootHash
  CreateProof := CreateProof
  MarshalData := MarshalData
  MarshalSalts := MarshalSalts
  UnmarshalData := decodeData
  UnmarshalSalts := decodeSalts

/-- A sample core document. -/
def coreDoc : coredocumentpb.CoreDocument :=
  { DocumentIdentifier := [1, 2, 3], CurrentVersion := [1, 2, 3], NextVersion := [4, 5, 6] }

/-- A sample payload. -/
def data : InvoiceData := { InvoiceNumber := [73, 78, 86, 49], GrossAmount := 42 }

/-- Sample salts. -/
def salts : InvoiceDataSalts := { InvoiceNumber := [11, 12], GrossAmount := [13, 14] }

/-- A sample invoice, with core document, data and salts. -/
def invoice : Invoice InvoiceData InvoiceDataSalts :=
  { Document := some { CoreDocument := some coreDoc, Data := some data, Salts := some salts } }

/-- The sample invoice packed into a core document. -/
def packed : coredocument.CoreDocument :=
  { Document := some
      { DocumentIdentifier := [1, 2, 3], CurrentVersion := [1, 2, 3], NextVersion := [4, 5, 6],
        EmbeddedData := some { TypeUrl := "invoice.InvoiceData", Value := [4, 73, 78, 86, 49, 42] },
        EmbeddedDataSalts :=
          some { TypeUrl := "invoice.InvoiceDataSalts", Value := [2, 11, 12, 13, 14] } } }

/-- A core document whose embedded data carries the type URL of another document type. -/
def mismatched : coredocument.CoreDocument :=
  { Document := some
      { DocumentIdentifier := [1, 2, 3], CurrentVersion := [1, 2, 3], NextVersion := [4, 5, 6],
        EmbeddedData :=
          some { TypeUrl := "purchaseorder.PurchaseOrderData", Value := [4, 73, 78, 86, 49, 42] },
        EmbeddedDataSalts :=
          some { TypeUrl := "invoice.InvoiceDataSalts", Value := [2, 11, 12, 13, 14] } } }

/-- A core document with the right type URLs whose embedded data is a truncated message:
the single byte 255. -/
def undecodable : coredocument.CoreDocument :=
  { Document := some
      { DocumentIdentifier := [1, 2, 3], CurrentVersion := [1, 2, 3], NextVersion := [4, 5, 6],
        EmbeddedData := some { TypeUrl := "invoice.InvoiceData", Value := [255] },
        EmbeddedDataSalts :=
          some { TypeUrl := "invoice.InvoiceDataSalts", Value := [2, 11, 12, 13, 14] } } }

/-- An invoice document without salts. -/
def unsalted : invoicepb.InvoiceDocument InvoiceData InvoiceDataSalts :=
  { CoreDocument := some coreDoc, Data := some data, Salts := none }

/-- An invoice without data: filling its tree fails. -/
def dataless : Invoice InvoiceData InvoiceDataSalts :=
  { Document := some { CoreDocument := some coreDoc, Data := none, Salts := some salts } }

/-- A core document whose embedded data carries the type URL of another document type and
whose embedded salts are absent. -/
def foreignWithoutSalts : coredocument.CoreDocument :=
  { Document := some
      { DocumentIdentifier := [1, 2, 3], CurrentVersion := [1, 2, 3], NextVersion := [4, 5, 6],
        EmbeddedData :=
          some { TypeUrl := "purchaseorder.PurchaseOrderData", Value := [4, 73, 78, 86, 49, 42] },
        EmbeddedDataSalts := none } }

/-- A core document whose embedded data carries the invoice type URL and whose embedded
salts are absent. -/
def withoutSalts : coredocument.CoreDocument :=
  { Document := some
      { DocumentIdentifier := [1, 2, 3], CurrentVersion := [1, 2, 3], NextVersion := [4, 5, 6],
        EmbeddedData := some { TypeUrl := "invoice.InvoiceData", Value := [4, 73, 78, 86, 49, 42] },
        EmbeddedDataSalts := none } }

/-- A core document without embedded data. -/
def withoutData : coredocument.CoreDocument :=
  { Document := some
      { DocumentIdentifier := [1, 2, 3], CurrentVersion := [1, 2, 3], NextVersion := [4, 5, 6],
        EmbeddedData := none,
        EmbeddedDataSalts :=
          some { TypeUrl := "invoice.InvoiceDataSalts", Value := [2, 11, 12, 13, 14] } } }

end sample

/-! ## The purchase order service and its version chain -/

namespace purchaseorder

/-- Modelled from the spec: the purchase order model, the payload fields that
`service_test.go` names together with the core document envelope (sections 2 and 3); the
declaration of the model is not under the sources.  A model always carries its envelope. -/
structure PurchaseOrderModel where
  PoNumber : String := ""
  OrderAmount : Int := 0
  ExtraData : Bytes := []
  CoreDocument : coredocumentpb.CoreDocument := {}
  deriving DecidableEq, Repr

/-- Modelled from the spec: the content-addressed repository (section 4.3), records keyed
by version identifier; the repository is not under the sources.  A record is a value: a
later change of the model it was created from does not reach it. -/
structure Repository where
  records : List (Bytes × PurchaseOrderModel)
  deriving DecidableEq, Repr

/-- Modelled from the spec: `exists(versionID)` of the repository (section 4.3). -/
def Repository.Exists (repo : Repository) (id : Bytes) : Bool :=
  (repo.records.lookup id).isSome

/-- Modelled from the spec: `get(versionID)` of the repository (section 4.3), which fails
when no record is stored under the key; the message is the one the tests expect. -/
def Repository.Get (repo : Repository) (id : Bytes) : Except GoError PurchaseOrderModel :=
  match repo.records.lookup id with
  | some po => .ok po
  | none => .error "leveldb: not found"

/-- Modelled from the spec: `create(versionID, model)` of the repository (section 4.3),
which fails when a record is already stored under the key and never overwrites; the
message is the one the tests expect. -/
def Repository.Create (repo : Repository) (id : Bytes) (po : PurchaseOrderModel) :
    Except GoError Repository :=
  if repo.Exists id then .error "document already exists"
  else .ok { records := (id, po) :: repo.records }

/-- Modelled from the spec: `GetVersion` of the service, which is not under the sources
(section 4.3: an unrelated but existing record under the key is not a valid answer), with
the behaviour and the messages that `TestService_GetVersion`,
`TestService_GetVersion_invalid_version` and
`TestService_CreateProofsForVersionDocumentDoesntExist` expect.  The record stored under
the version is loaded; it is a valid answer only when its document identifier is the
requested one. -/
def GetVersion (repo : Repository) (documentID version : Bytes) :
    Except GoError PurchaseOrderModel :=
  match repo.Get version with
  | .error err => .error ("document not found for the given version: " ++ err)
  | .ok po =>
    if po.CoreDocument.DocumentIdentifier = documentID then .ok po
    else .error
      "[4]document not found for the given version: version is not valid for this identifier"

/-- Modelled from the spec: the produced proof artifact (section 6), document identifier,
version identifier and field proofs. -/
structure DocumentProof where
  DocumentId : Bytes
  VersionId : Bytes
  FieldProofs : List proofs.Proof
  deriving DecidableEq, Repr

/-- Modelled from the spec: what proof generation consults and the spec leaves external or
open (sections 4.1, 4.5 and 6): the derivation of the anchor identifier, the anchor
registry, and the field proofs of the tree built from a stored model. -/
structure ProofEnv where
  /-- The anchor identifier derived from a document identifier. -/
  anchorID : Bytes → Bytes
  /-- The document root the anchor registry holds for an anchor identifier, if any. -/
  getDocumentRootOf : Bytes → Option Bytes
  /-- The field proofs of a stored model for the requested names, or the tree's error. -/
  fieldProofs : PurchaseOrderModel → List String → Except GoError (List proofs.Proof)

/-- Modelled from the spec: `verifyAnchored(documentIdentifier, claimedDocumentRoot)`
(section 4.5), which fails `NotAnchored` when the registry has no record and `RootMismatch`
when the recorded root differs. -/
def verifyAnchored (E : ProofEnv) (documentIdentifier claimedDocumentRoot : Bytes) :
    Except GoError Unit :=
  match E.getDocumentRootOf (E.anchorID documentIdentifier) with
  | none => .error "NotAnchored"
  | some root => if root = claimedDocumentRoot then .ok () else .error "RootMismatch"

/-- Modelled from the spec: `createProofsForVersion(documentIdentifier, versionID,
fieldNames)` (section 4.6), which is not under the sources: resolve the version, check
that the signing root is present, call the anchor verifier, produce the field proofs, and
tag the result with the document identifier and the requested version.  The messages are
the ones the tests expect. -/
def CreateProofsForVersion (E : ProofEnv) (repo : Repository) (documentID version : Bytes)
    (fields : List String) : Except GoError DocumentProof :=
  match GetVersion repo documentID version with
  | .error err => .error err
  | .ok po =>
    if po.CoreDocument.SigningRoot = [] then .error "signing root missing"
    else
      match verifyAnchored E po.CoreDocument.DocumentIdentifier po.CoreDocument.DocumentRoot with
      | .error err => .error err
      | .ok _ =>
        match E.fieldProofs po fields with
        | .error err => .error ("createProofs error " ++ err)
        | .ok fieldProofs =>
          .ok { DocumentId := documentID, VersionId := version, FieldProofs := fieldProofs }

/-- Modelled from the spec: the operations of the model and of the core document package
that the update step calls (sections 3 and 4.2), none of which is under the sources.  The
spec fixes neither their hash values nor their wire format, so they are parameters: each
gives the new state, or an error. -/
structure ModelOps where
  /-- The model after `calculateDataRoot()`. -/
  calculateDataRoot : PurchaseOrderModel → Except GoError PurchaseOrderModel
  /-- The core document `PackCoreDocument()` returns. -/
  PackCoreDocument : PurchaseOrderModel → Except GoError coredocumentpb.CoreDocument
  /-- The core document after `coredocument.CalculateSigningRoot`. -/
  CalculateSigningRoot : coredocumentpb.CoreDocument → Except GoError coredocumentpb.CoreDocument
  /-- The core document after `coredocument.CalculateDocumentRoot`. -/
  CalculateDocumentRoot : coredocumentpb.CoreDocument → Except GoError coredocumentpb.CoreDocument
  /-- The model after `UnpackCoreDocument(corDoc)`. -/
  UnpackCoreDocument :
    PurchaseOrderModel → coredocumentpb.CoreDocument → Except GoError PurchaseOrderModel

/-- Two core documents with the same document identifier and version pointers. -/
def sameIdentifiers (a b : coredocumentpb.CoreDocument) : Prop :=
  a.DocumentIdentifier = b.DocumentIdentifier ∧ a.CurrentVersion = b.CurrentVersion ∧
    a.NextVersion = b.NextVersion

/-- Modelled from the spec: what sections 3 and 4.2 say of the operations the update step
calls, as far as the version chain goes.  They write roots and the embedded payload; the
document identifier is immutable and the version pointers are not theirs to change. -/
structure KeepsIdentifiers (O : ModelOps) : Prop where
  /-- Computing the data root sets the data root. -/
  dataRoot : ∀ po po1, O.calculateDataRoot po = .ok po1 →
    sameIdentifiers po1.CoreDocument po.CoreDocument
  /-- Packing gives the model's envelope with the serialized payload and salts. -/
  pack : ∀ po cd, O.PackCoreDocument po = .ok cd → sameIdentifiers cd po.CoreDocument
  /-- Computing the signing root sets the signing root. -/
  signingRoot : ∀ cd cd1, O.CalculateSigningRoot cd = .ok cd1 → sameIdentifiers cd1 cd
  /-- Computing the document root sets the document root. -/
  documentRoot : ∀ cd cd1, O.CalculateDocumentRoot cd = .ok cd1 → sameIdentifiers cd1 cd
  /-- Unpacking takes the envelope of the core document it is given. -/
  unpack : ∀ po cd po1, O.UnpackCoreDocument po cd = .ok po1 →
    sameIdentifiers po1.CoreDocument cd

/-- The test helper `updatedAnchoredMockDocument` of `service_test.go`: the returned model
or error, and the repository after the call.  `rnd` is the slice `utils.RandomSlice(32)`
returns. -/
def updatedAnchoredMockDocument (O : ModelOps) (rnd : Bytes) (repo : Repository)
    (model : PurchaseOrderModel) : Except GoError PurchaseOrderModel × Repository :=
  let model := { model with OrderAmount := 50 }
  match O.calculateDataRoot model with
  | .error err => (.error err, repo)
  | .ok model =>
  match O.PackCoreDocument model with
  | .error err => (.error err, repo)
  | .ok corDoc =>
  let corDoc := { corDoc with CurrentVersion := corDoc.NextVersion }
  let corDoc := { corDoc with NextVersion := rnd }
  match O.CalculateSigningRoot corDoc with
  | .error err => (.error err, repo)
  | .ok corDoc =>
  match O.CalculateDocumentRoot corDoc with
  | .error err => (.error err, repo)
  | .ok corDoc =>
  match O.UnpackCoreDocument model corDoc with
  | .error err => (.error err, repo)
  | .ok model =>
  match repo.Create model.CoreDocument.CurrentVersion model with
  | .error err => (.error err, repo)
  | .ok repo => (.ok model, repo)

/-- The payload bytes of a model in the sample wire format. -/
def sampleEncode (po : PurchaseOrderModel) : Bytes :=
  merkle.strBytes po.PoNumber ++ [po.OrderAmount.toNat] ++ po.ExtraData

/-- Sample operations: roots are checksums, and a root is computed only over the root
before it. -/
def sampleOps : ModelOps where
  calculateDataRoot := fun po =>
    let cd := { po.CoreDocument with DataRoot := sample.hash (sampleEncode po) }
    .ok { po with CoreDocument := cd }
  PackCoreDocument := fun po =>
    let data : any.Any :=
      { TypeUrl := "purchaseorder.PurchaseOrderData", Value := sampleEncode po }
    let salts : any.Any := { TypeUrl := "purchaseorder.PurchaseOrderSalts", Value := [] }
    .ok { po.CoreDocument with EmbeddedData := some data, EmbeddedDataSalts := some salts }
  CalculateSigningRoot := fun cd =>
    if cd.DataRoot = [] then .error "data root missing"
    else
      let root :=
        sample.hash (cd.DataRoot ++ cd.DocumentIdentifier ++ cd.CurrentVersion ++ cd.NextVersion)
      .ok { cd with SigningRoot := root }
  CalculateDocumentRoot := fun cd =>
    if cd.SigningRoot = [] then .error "signing root missing"
    else .ok { cd with DocumentRoot := sample.hash cd.SigningRoot }
  UnpackCoreDocument := fun po cd =>
    match cd.EmbeddedData with
    | none => .error "trying to convert document with incorrect schema"
    | some ed =>
      if ed.TypeUrl = "purchaseorder.PurchaseOrderData" then
        let emptied := { cd with EmbeddedData := none, EmbeddedDataSalts := none }
        .ok { po with CoreDocument := emptied }
      else .error "trying to convert document with incorrect schema"

/-- The sample anchored model of the tests: `test_po`, amount 42, first version. -/
def sampleModel : PurchaseOrderModel :=
  { PoNumber := "test_po", OrderAmount := 42,
    CoreDocument :=
      { DocumentIdentifier := [1], CurrentVersion := [1], NextVersion := [2],
        DataRoot := [5], SigningRoot := [6], DocumentRoot := [7] } }

/-- The sample model after the update step with fresh next version `[3]`. -/
def sampleUpdated : PurchaseOrderModel :=
  { PoNumber := "test_po", OrderAmount := 50,
    CoreDocument :=
      { DocumentIdentifier := [1], CurrentVersion := [2], NextVersion := [3],
        DataRoot := [52027], SigningRoot := [16196], DocumentRoot := [16413] } }

/-- A repository that holds the sample model under its current version. -/
def sampleRepo : Repository := { records := [([1], sampleModel)] }

/-- A repository, as in `TestService_GetVersion_invalid_version`, holding under version
`[9]` a record of document `[8]`. -/
def otherRepo : Repository :=
  let cd : coredocumentpb.CoreDocument := { DocumentIdentifier := [8], CurrentVersion := [9] }
  { records := [([9], { OrderAmount := 42, CoreDocument := cd })] }

/-- A sample proof environment: the registry holds root `[7]` for document `[1]`, and the
field proofs are those of the tree of the spec over the two payload fields. -/
def sampleEnv : ProofEnv where
  anchorID := fun documentIdentifier => documentIdentifier
  getDocumentRootOf := fun id => if id = [1] then some [7] else none
  fieldProofs := fun po fields =>
    let amount : merkle.FieldTree := .leaf "order_amount" [po.OrderAmount.toNat] []
    let number : merkle.FieldTree := .leaf "po_number" (merkle.strBytes po.PoNumber) []
    fields.mapM (fun field => sample.CreateProof (merkle.build 2 [amount, number]) field)

end purchaseorder

/-! ## Lemmas on the embedding -/

section Lemmas

variable {D S T : Type}

/-- What `getDocumentTree` returns when the tree fills without error. -/
theorem getDocumentTree_of_filled (X : Externals D S T) (inv : Invoice D S)
    (doc : invoicepb.InvoiceDocument D S) (tree : T) (hdoc : inv.Document = some doc)
    (htree : X.FillTree (X.SetHashFunc X.NewDocumentTree) doc.Data doc.Salts = (tree, none)) :
    inv.getDocumentTree X = .returned (.ok tree) := by
  simp [Invoice.getDocumentTree, hdoc, htree]

/-- What `getDocumentTree` returns when filling the tree fails. -/
theorem getDocumentTree_of_failed (X : Externals D S T) (inv : Invoice D S)
    (doc : invoicepb.InvoiceDocument D S) (tree : T) (err : GoError)
    (hdoc : inv.Document = some doc)
    (htree : X.FillTree (X.SetHashFunc X.NewDocumentTree) doc.Data doc.Salts
      = (tree, some err)) :
    inv.getDocumentTree X = .returned (.error err) := by
  simp [Invoice.getDocumentTree, hdoc, htree]

/-- The loop on names that are all leaves: the proofs are appended in order. -/
theorem loop_all_leaves (X : Externals D S T) (tree : T) :
    ∀ (fields : List String) (acc : List proofs.Proof),
      (∀ f ∈ fields, ∃ p, X.CreateProof tree f = .ok p) →
      ∃ ps, Invoice.CreateProofs.loop X tree fields acc = (acc ++ ps, none) ∧
        List.Forall₂ (fun f p => X.CreateProof tree f = .ok p) fields ps := by
  intro fields
  induction fields with
  | nil =>
    intro acc _
    exact ⟨[], by simp [Invoice.CreateProofs.loop], List.Forall₂.nil⟩
  | cons f rest ih =>
    intro acc h
    obtain ⟨p, hp⟩ := h f (List.mem_cons_self f rest)
    obtain ⟨ps, hps, hall⟩ := ih (acc ++ [p]) (fun g hg => h g (List.mem_cons_of_mem f hg))
    refine ⟨p :: ps, ?_, List.Forall₂.cons hp hall⟩
    simp [Invoice.CreateProofs.loop, hp, hps]

/-- The loop stops at the first name that is not a leaf, with that name's error and the
nil slice. -/
theorem loop_first_failure (X : Externals D S T) (tree : T) (f : String) (post : List String)
    (err : GoError) (hf : X.CreateProof tree f = .error err) :
    ∀ (pre : List String) (acc : List proofs.Proof),
      (∀ g ∈ pre, ∃ p, X.CreateProof tree g = .ok p) →
      Invoice.CreateProofs.loop X tree (pre ++ f :: post) acc = ([], some err) := by
  intro pre
  induction pre with
  | nil =>
    intro acc _
    simp [Invoice.CreateProofs.loop, hf]
  | cons g rest ih =>
    intro acc h
    obtain ⟨p, hp⟩ := h g (List.mem_cons_self g rest)
    have := ih (acc ++ [p]) (fun k hk => h k (List.mem_cons_of_mem g hk))
    simp [Invoice.CreateProofs.loop, hp, this]

/-- A list with a name that is not a leaf splits at the first such name. -/
theorem split_at_first_failure (X : Externals D S T) (tree : T) :
    ∀ (fields : List String), (∃ f ∈ fields, ∃ e, X.CreateProof tree f = .error e) →
      ∃ pre f post err, fields = pre ++ f :: post ∧
        (∀ g ∈ pre, ∃ p, X.CreateProof tree g = .ok p) ∧
        X.CreateProof tree f = .error err := by
  intro fields
  induction fields with
  | nil =>
    rintro ⟨f, hf, _⟩
    cases hf
  | cons g rest ih =>
    rintro ⟨f, hf, e, he⟩
    cases hg : X.CreateProof tree g with
    | error err => exact ⟨[], g, rest, err, rfl, by simp, hg⟩
    | ok p =>
      have hrest : f ∈ rest := by
        rcases List.mem_cons.mp hf with h | h
        · subst h
          rw [hg] at he
          cases he
        · exact h
      obtain ⟨pre, f1, post, err, hsplit, hpre, hf1⟩ := ih ⟨f, hrest, e, he⟩
      refine ⟨g :: pre, f1, post, err, by simp [hsplit], ?_, hf1⟩
      intro k hk
      rcases List.mem_cons.mp hk with h | h
      · subst h
        exact ⟨p, hg⟩
      · exact hpre k h

/-- What `CalculateMerkleRoot` returns when the tree fills and the core document is
present: the root hash is assigned to `DocumentRoot`. -/
theorem calculateMerkleRoot_of_filled (X : Externals D S T) (inv : Invoice D S)
    (doc : invoicepb.InvoiceDocument D S) (cd : coredocumentpb.CoreDocument) (tree : T)
    (hdoc : inv.Document = some doc) (hcd : doc.CoreDocument = some cd)
    (htree : X.FillTree (X.SetHashFunc X.NewDocumentTree) doc.Data doc.Salts = (tree, none)) :
    inv.CalculateMerkleRoot X = .returned
      ({ Document := some
          { doc with CoreDocument := some { cd with DocumentRoot := X.RootHash tree } } },
        none) := by
  simp [Invoice.CalculateMerkleRoot, getDocumentTree_of_filled X inv doc tree hdoc htree,
    hdoc, hcd]

/-- The tree is built from the data and the salts alone: two invoices that agree on them
get the same tree. -/
theorem getDocumentTree_congr (X : Externals D S T) (inv inv1 : Invoice D S)
    (doc doc1 : invoicepb.InvoiceDocument D S) (hdoc : inv.Document = some doc)
    (hdoc1 : inv1.Document = some doc1) (hdata : doc1.Data = doc.Data)
    (hsalts : doc1.Salts = doc.Salts) :
    inv1.getDocumentTree X = inv.getDocumentTree X := by
  simp [Invoice.getDocumentTree, hdoc, hdoc1, hdata, hsalts]

/-- Proofs depend on the invoice through its tree only. -/
theorem createProofs_congr (X : Externals D S T) (inv inv1 : Invoice D S)
    (fields : List String) (h : inv1.getDocumentTree X = inv.getDocumentTree X) :
    inv1.CreateProofs X fields = inv.CreateProofs X fields := by
  simp [Invoice.CreateProofs, h]

/-- Each element of the right list of a pointwise relation has a partner on the left. -/
theorem forall₂_right_partner {α β : Type} {R : α → β → Prop} {l₁ : List α} {l₂ : List β}
    (h : List.Forall₂ R l₁ l₂) : ∀ b ∈ l₂, ∃ a ∈ l₁, R a b := by
  induction h with
  | nil =>
    intro b hb
    cases hb
  | cons hab _ ih =>
    intro b hb
    rcases List.mem_cons.mp hb with h | h
    · subst h
      exact ⟨_, List.mem_cons_self _ _, hab⟩
    · obtain ⟨a, ha, hr⟩ := ih b h
      exact ⟨a, List.mem_cons_of_mem _ ha, hr⟩

/-- The properties of proofs that `CreateProof` gave for a list of names are those names,
when the library's proof of a name carries the name. -/
theorem properties_of_forall₂ (X : Externals D S T) (tree : T)
    (hprop : ∀ f p, X.CreateProof tree f = .ok p → p.Property = f)
    {fields : List String} {ps : List proofs.Proof}
    (h : List.Forall₂ (fun f p => X.CreateProof tree f = .ok p) fields ps) :
    ps.map (fun p => p.Property) = fields := by
  induction h with
  | nil => rfl
  | cons hab _ ih => simp only [List.map_cons, hprop _ _ hab, ih]

/-- Merging into the zero `Any` copies the source. -/
theorem mergeAny_zero (a : any.Any) : proto.MergeAny {} a = a := by
  cases a with
  | mk u v =>
    simp only [proto.MergeAny, proto.mergeString, proto.mergeBytes, any.Any.mk.injEq]
    constructor
    · split
      · next h => exact h.symm
      · rfl
    · split
      · next h => exact h.symm
      · rfl

/-- Merging into the zero core document copies the source. -/
theorem merge_zero (c : coredocumentpb.CoreDocument) : proto.Merge {} (some c) = c := by
  have hb : ∀ b : Bytes, proto.mergeBytes [] b = b := by
    intro b
    unfold proto.mergeBytes
    split
    · next h => exact h.symm
    · rfl
  have ha : ∀ o : Option any.Any, proto.mergeAnyField none o = o := by
    intro o
    cases o with
    | none => rfl
    | some a => simp [proto.mergeAnyField, mergeAny_zero]
  cases c
  simp [proto.Merge, hb, ha]

/-- What `ConvertToCoreDocument` returns when both messages serialize. -/
theorem convertToCoreDocument_of_marshalled (X : Externals D S T) (inv : Invoice D S)
    (doc : invoicepb.InvoiceDocument D S) (bd bs : Bytes) (hdoc : inv.Document = some doc)
    (hmd : X.MarshalData doc.Data = .ok bd) (hms : X.MarshalSalts doc.Salts = .ok bs) :
    inv.ConvertToCoreDocument X = .returned
      { Document := some
          { proto.Merge {} doc.CoreDocument with
            EmbeddedData := some { TypeUrl := X.InvoiceDataTypeUrl, Value := bd },
            EmbeddedDataSalts := some { TypeUrl := X.InvoiceSaltsTypeUrl, Value := bs } } } := by
  simp [Invoice.ConvertToCoreDocument, hdoc, hmd, hms]

/-- A core document that `ConvertToCoreDocument` returned carries both embedded messages
with the invoice type URLs. -/
theorem convertToCoreDocument_tags (X : Externals D S T) (inv : Invoice D S)
    (packed : coredocument.CoreDocument) (h : inv.ConvertToCoreDocument X = .returned packed) :
    ∃ doc bd bs, packed.Document = some doc ∧
      doc.EmbeddedData = some { TypeUrl := X.InvoiceDataTypeUrl, Value := bd } ∧
      doc.EmbeddedDataSalts = some { TypeUrl := X.InvoiceSaltsTypeUrl, Value := bs } := by
  cases hdoc : inv.Document with
  | none => simp [Invoice.ConvertToCoreDocument, hdoc] at h
  | some doc =>
    cases hmd : X.MarshalData doc.Data with
    | error e => simp [Invoice.ConvertToCoreDocument, hdoc, hmd] at h
    | ok bd =>
      cases hms : X.MarshalSalts doc.Salts with
      | error e => simp [Invoice.ConvertToCoreDocument, hdoc, hmd, hms] at h
      | ok bs =>
        rw [convertToCoreDocument_of_marshalled X inv doc bd bs hdoc hmd hms] at h
        simp only [Outcome.returned.injEq] at h
        subst h
        exact ⟨_, bd, bs, rfl, rfl, rfl⟩

/-- What `NewInvoiceFromCoreDocument` returns when both embedded messages are present with
the invoice type URLs: the decode targets, whatever errors the decoding reported. -/
theorem newInvoiceFromCoreDocument_of_tags (X : Externals D S T) (rnd : Bytes)
    (cd : coredocument.CoreDocument) (doc : coredocumentpb.CoreDocument) (ed es : any.Any)
    (hdoc : cd.Document = some doc) (hed : doc.EmbeddedData = some ed)
    (hes : doc.EmbeddedDataSalts = some es) (hdt : ed.TypeUrl = X.InvoiceDataTypeUrl)
    (hst : es.TypeUrl = X.InvoiceSaltsTypeUrl) :
    NewInvoiceFromCoreDocument X rnd (some cd) = .returned
      { Document := some
          { CoreDocument := some { doc with EmbeddedData := none, EmbeddedDataSalts := none }
            Data := some (X.UnmarshalData ed.Value X.zeroData).1
            Salts := some (X.UnmarshalSalts es.Value X.zeroSalts).1 } } := by
  simp [NewInvoiceFromCoreDocument, NewEmptyInvoice, hdoc, hed, hes, hdt, hst, merge_zero]

/-- What `NewInvoiceFromCoreDocument` does on a type URL mismatch. -/
theorem newInvoiceFromCoreDocument_of_mismatch (X : Externals D S T) (rnd : Bytes)
    (cd : coredocument.CoreDocument) (doc : coredocumentpb.CoreDocument) (ed es : any.Any)
    (hdoc : cd.Document = some doc) (hed : doc.EmbeddedData = some ed)
    (hes : doc.EmbeddedDataSalts = some es)
    (hbad : ed.TypeUrl ≠ X.InvoiceDataTypeUrl ∨ es.TypeUrl ≠ X.InvoiceSaltsTypeUrl) :
    NewInvoiceFromCoreDocument X rnd (some cd) = .fatal incorrectSchemaMsg := by
  by_cases hdt : ed.TypeUrl = X.InvoiceDataTypeUrl
  · have hst : es.TypeUrl ≠ X.InvoiceSaltsTypeUrl := by
      rcases hbad with h | h
      · exact absurd hdt h
      · exact h
    simp [NewInvoiceFromCoreDocument, hdoc, hed, hes, hdt, hst]
  · simp [NewInvoiceFromCoreDocument, hdoc, hed, hdt]

/-- A loop that ends with an error returns the nil slice. -/
theorem loop_error_nil (X : Externals D S T) (tree : T) :
    ∀ (fields : List String) (acc ps : List proofs.Proof) (e : GoError),
      Invoice.CreateProofs.loop X tree fields acc = (ps, some e) → ps = [] := by
  intro fields
  induction fields with
  | nil =>
    intro acc ps e h
    simp [Invoice.CreateProofs.loop] at h
  | cons f rest ih =>
    intro acc ps e h
    cases hf : X.CreateProof tree f with
    | error err =>
      simp only [Invoice.CreateProofs.loop, hf, Prod.mk.injEq] at h
      exact h.1.symm
    | ok p =>
      simp only [Invoice.CreateProofs.loop, hf] at h
      exact ih _ ps e h

end Lemmas

/-! ## Lemmas on the salted field tree -/

namespace merkle

/-- The comparison is total. -/
theorem lexLe_total : ∀ (a b : Bytes), lexLe a b = false → lexLe b a = true
  | [], _, h => by simp [lexLe] at h
  | _ :: _, [], _ => by simp [lexLe]
  | a :: as, b :: bs, h => by
    simp only [lexLe] at h ⊢
    by_cases hab : a < b
    · simp [hab] at h
    · by_cases hba : b < a
      · simp [hba]
      · simp only [hab, hba, if_false] at h ⊢
        exact lexLe_total as bs h

/-- The comparison is antisymmetric. -/
theorem lexLe_antisymm : ∀ (a b : Bytes), lexLe a b = true → lexLe b a = true → a = b
  | [], [], _, _ => rfl
  | [], _ :: _, _, h => by simp [lexLe] at h
  | _ :: _, [], h, _ => by simp [lexLe] at h
  | a :: as, b :: bs, h1, h2 => by
    simp only [lexLe] at h1 h2
    by_cases hab : a < b
    · have hba : ¬ b < a := by omega
      simp [hab, hba] at h2
    · by_cases hba : b < a
      · simp [hab, hba] at h1
      · simp only [hab, hba, if_false] at h1 h2
        have : a = b := by omega
        rw [this, lexLe_antisymm as bs h1 h2]

/-- Sorted-pair hashing does not depend on the order of its two arguments. -/
theorem hashPair_comm (H : Bytes → Bytes) (a b : Bytes) : hashPair H a b = hashPair H b a := by
  unfold hashPair
  cases hab : lexLe a b <;> cases hba : lexLe b a
  · have := lexLe_total a b hab
    rw [hba] at this
    cases this
  · simp
  · simp
  · rw [lexLe_antisymm a b hab hba]

/-- The proof of a name carries that name. -/
theorem proveField_property (H : Bytes → Bytes) :
    ∀ (t : FieldTree) (name : String) (pf : proofs.Proof),
      t.proveField H name = some pf → pf.Property = name
  | .leaf p v s, name, pf, h => by
    simp only [FieldTree.proveField] at h
    split at h
    · cases h
      assumption
    · cases h
  | .node l r, name, pf, h => by
    simp only [FieldTree.proveField] at h
    cases hl : l.proveField H name with
    | some q =>
      rw [hl] at h
      cases h
      exact proveField_property H l name q hl
    | none =>
      rw [hl] at h
      cases hr : r.proveField H name with
      | some q =>
        rw [hr] at h
        cases h
        exact proveField_property H r name q hr
      | none =>
        rw [hr] at h
        cases h

/-- Folding a proof's sibling hashes over its leaf hash gives the hash of the tree. -/
theorem proveField_fold (H : Bytes → Bytes) :
    ∀ (t : FieldTree) (name : String) (pf : proofs.Proof),
      t.proveField H name = some pf →
      pf.SortedHashes.foldl (hashPair H) (leafHash H pf.Property pf.Value pf.Salt) = t.hash H
  | .leaf p v s, name, pf, h => by
    simp only [FieldTree.proveField] at h
    split at h
    · cases h
      rfl
    · cases h
  | .node l r, name, pf, h => by
    simp only [FieldTree.proveField] at h
    cases hl : l.proveField H name with
    | some q =>
      rw [hl] at h
      cases h
      simp [FieldTree.hash, proveField_fold H l name q hl]
    | none =>
      rw [hl] at h
      cases hr : r.proveField H name with
      | some q =>
        rw [hr] at h
        cases h
        simp [FieldTree.hash, proveField_fold H r name q hr, hashPair_comm H (l.hash H)]
      | none =>
        rw [hr] at h
        cases h

/-- Proof round trip on the tree: a proof verifies against the root hash. -/
theorem verifyField_proveField (H : Bytes → Bytes) (t : FieldTree) (name : String)
    (pf : proofs.Proof) (h : t.proveField H name = some pf) :
    verifyField H pf (t.hash H) = true := by
  simp [verifyField, proveField_fold H t name pf h]

/-- Every leaf name of a tree has a proof. -/
theorem proveField_of_mem_names (H : Bytes → Bytes) :
    ∀ (t : FieldTree) (name : String), name ∈ t.names → ∃ pf, t.proveField H name = some pf
  | .leaf p v s, name, h => by
    simp only [FieldTree.names, List.mem_singleton] at h
    simp [FieldTree.proveField, h]
  | .node l r, name, h => by
    simp only [FieldTree.names, List.mem_append] at h
    cases hl : l.proveField H name with
    | some q => simp [FieldTree.proveField, hl]
    | none =>
      rcases h with h | h
      · obtain ⟨q, hq⟩ := proveField_of_mem_names H l name h
        rw [hq] at hl
        cases hl
      · obtain ⟨q, hq⟩ := proveField_of_mem_names H r name h
        simp [FieldTree.proveField, hl, hq]

end merkle

namespace sample

/-- The sample libraries keep the contract of the salted field tree. -/
theorem contract :
    SaltedFieldTreeContract externals fieldNames (merkle.verifyField hash) where
  field_is_leaf := by
    intro t d s tree h f hf
    cases s with
    | none => simp [externals, FillTree] at h
    | some s =>
      simp only [externals, FillTree, leaves, List.length, merkle.build, merkle.pairUp,
        Prod.mk.injEq, and_true] at h
      subst h
      simp only [externals, CreateProof]
      obtain ⟨pf, hpf⟩ := merkle.proveField_of_mem_names hash
        (.node (.leaf "gross_amount" [d.GrossAmount] s.GrossAmount)
          (.leaf "invoice_number" d.InvoiceNumber s.InvoiceNumber)) f
        (by simpa [merkle.FieldTree.names, fieldNames] using hf)
      exact ⟨pf, by rw [hpf]⟩
  property_eq := by
    intro tree f p h
    cases tree with
    | none => simp [externals, CreateProof] at h
    | some t =>
      simp only [externals, CreateProof] at h
      cases hp : t.proveField hash f with
      | none => simp [hp] at h
      | some q =>
        rw [hp] at h
        cases h
        exact merkle.proveField_property hash t f _ hp
  round_trip := by
    intro tree f p h
    cases tree with
    | none => simp [externals, CreateProof] at h
    | some t =>
      simp only [externals, CreateProof] at h
      cases hp : t.proveField hash f with
      | none => simp [hp] at h
      | some q =>
        rw [hp] at h
        cases h
        exact merkle.verifyField_proveField hash t f _ hp

end sample

/-! ## Lemmas on the repository and the update step -/

namespace purchaseorder

/-- A successful create stores the record under a key that was free. -/
theorem create_ok (repo repo1 : Repository) (id : Bytes) (po : PurchaseOrderModel)
    (h : repo.Create id po = .ok repo1) :
    repo.Exists id = false ∧ repo1 = { records := (id, po) :: repo.records } := by
  unfold Repository.Create at h
  cases hex : repo.Exists id with
  | true => simp [hex] at h
  | false =>
    simp only [hex, Bool.false_eq_true, if_false, Except.ok.injEq] at h
    exact ⟨rfl, h.symm⟩

/-- A failed create leaves no new repository; it happens exactly on a taken key. -/
theorem create_of_free (repo : Repository) (id : Bytes) (po : PurchaseOrderModel)
    (h : repo.Exists id = false) :
    repo.Create id po = .ok { records := (id, po) :: repo.records } := by
  simp [Repository.Create, h]

/-- A record stored before a key was added under a free key is still what `Get` returns. -/
theorem get_cons_of_get (repo : Repository) (id key : Bytes) (po rec : PurchaseOrderModel)
    (hfree : repo.Exists id = false) (hget : repo.Get key = .ok rec) :
    Repository.Get { records := (id, po) :: repo.records } key = .ok rec := by
  have hne : (key == id) = false := by
    cases hk : key == id with
    | false => rfl
    | true =>
      have hkey : key = id := by simpa using hk
      subst hkey
      unfold Repository.Get at hget
      unfold Repository.Exists at hfree
      cases hl : repo.records.lookup key with
      | none => simp [hl] at hget
      | some r => simp [hl] at hfree
  unfold Repository.Get at hget ⊢
  simp only [List.lookup_cons, hne]
  exact hget

/-- The record just added is what `Get` returns under its key. -/
theorem get_cons_self (repo : Repository) (id : Bytes) (po : PurchaseOrderModel) :
    Repository.Get { records := (id, po) :: repo.records } id = .ok po := by
  simp [Repository.Get, List.lookup_cons]

/-- Resolving a version and producing its proofs reads the repository at that version
only. -/
theorem createProofsForVersion_congr (E : ProofEnv) (repo repo1 : Repository)
    (documentID version : Bytes) (fields : List String)
    (h : repo1.Get version = repo.Get version) :
    CreateProofsForVersion E repo1 documentID version fields
      = CreateProofsForVersion E repo documentID version fields := by
  simp [CreateProofsForVersion, GetVersion, h]

/-- A version that resolves has a record under it. -/
theorem get_of_createProofsForVersion (E : ProofEnv) (repo : Repository)
    (documentID version : Bytes) (fields : List String) (p : DocumentProof)
    (h : CreateProofsForVersion E repo documentID version fields = .ok p) :
    (∃ rec, repo.Get version = .ok rec) ∧ p.DocumentId = documentID ∧
      p.VersionId = version := by
  unfold CreateProofsForVersion GetVersion at h
  cases hget : repo.Get version with
  | error e => simp [hget] at h
  | ok rec =>
    refine ⟨⟨rec, rfl⟩, ?_⟩
    simp only [hget] at h
    split at h
    · cases h
    · split at h
      · cases h
      · split at h
        · cases h
        · split at h
          · cases h
          · cases h
            exact ⟨rfl, rfl⟩

/-- The update step either leaves the repository as it was or adds one record under a key
that was free. -/
theorem update_repository (O : ModelOps) (rnd : Bytes) (repo : Repository)
    (model : PurchaseOrderModel) :
    (updatedAnchoredMockDocument O rnd repo model).2 = repo ∨
      ∃ id po, repo.Exists id = false ∧
        (updatedAnchoredMockDocument O rnd repo model).2
          = { records := (id, po) :: repo.records } := by
  unfold updatedAnchoredMockDocument
  simp only
  split
  · exact Or.inl rfl
  · split
    · exact Or.inl rfl
    · split
      · exact Or.inl rfl
      · split
        · exact Or.inl rfl
        · split
          · exact Or.inl rfl
          · split
            · exact Or.inl rfl
            · rename_i hcreate
              obtain ⟨hfree, hrepo⟩ := create_ok _ _ _ _ hcreate
              exact Or.inr ⟨_, _, hfree, hrepo⟩

/-- The update step returns a model when each operation it calls succeeds and no record
is stored under the new current version. -/
theorem update_of_steps (O : ModelOps) (rnd : Bytes) (repo : Repository)
    (model po1 po2 : PurchaseOrderModel) (cd cd1 cd2 : coredocumentpb.CoreDocument)
    (h1 : O.calculateDataRoot { model with OrderAmount := 50 } = .ok po1)
    (h2 : O.PackCoreDocument po1 = .ok cd)
    (h3 : O.CalculateSigningRoot
      { cd with CurrentVersion := cd.NextVersion, NextVersion := rnd } = .ok cd1)
    (h4 : O.CalculateDocumentRoot cd1 = .ok cd2)
    (h5 : O.UnpackCoreDocument po1 cd2 = .ok po2)
    (h6 : repo.Exists po2.CoreDocument.CurrentVersion = false) :
    updatedAnchoredMockDocument O rnd repo model
      = (.ok po2, { records := (po2.CoreDocument.CurrentVersion, po2) :: repo.records }) := by
  unfold updatedAnchoredMockDocument
  simp only [h1, h2, h3, h4, h5, create_of_free repo _ po2 h6]

/-- The steps behind a model that the update step returns. -/
theorem update_ok_steps (O : ModelOps) (rnd : Bytes) (repo : Repository)
    (model updated : PurchaseOrderModel)
    (h : (updatedAnchoredMockDocument O rnd repo model).1 = .ok updated) :
    ∃ po1 cd cd1 cd2,
      O.calculateDataRoot { model with OrderAmount := 50 } = .ok po1 ∧
      O.PackCoreDocument po1 = .ok cd ∧
      O.CalculateSigningRoot { cd with CurrentVersion := cd.NextVersion, NextVersion := rnd }
        = .ok cd1 ∧
      O.CalculateDocumentRoot cd1 = .ok cd2 ∧
      O.UnpackCoreDocument po1 cd2 = .ok updated ∧
      repo.Exists updated.CoreDocument.CurrentVersion = false ∧
      (updatedAnchoredMockDocument O rnd repo model).2
        = { records := (updated.CoreDocument.CurrentVersion, updated) :: repo.records } := by
  have hcopy := h
  unfold updatedAnchoredMockDocument at h
  simp only at h
  rcases h1 : O.calculateDataRoot { model with OrderAmount := 50 } with e | po1
  · simp [h1] at h
  simp only [h1] at h
  rcases h2 : O.PackCoreDocument po1 with e | cd
  · simp [h2] at h
  simp only [h2] at h
  rcases h3 : O.CalculateSigningRoot
      { cd with CurrentVersion := cd.NextVersion, NextVersion := rnd } with e | cd1
  · simp [h3] at h
  simp only [h3] at h
  rcases h4 : O.CalculateDocumentRoot cd1 with e | cd2
  · simp [h4] at h
  simp only [h4] at h
  rcases h5 : O.UnpackCoreDocument po1 cd2 with e | po2
  · simp [h5] at h
  simp only [h5] at h
  rcases h6 : repo.Create po2.CoreDocument.CurrentVersion po2 with e | repo1
  · simp [h6] at h
  simp only [h6, Except.ok.injEq] at h
  subst h
  obtain ⟨hfree, _⟩ := create_ok repo repo1 _ po2 h6
  refine ⟨po1, cd, cd1, cd2, rfl, h2, h3, h4, h5, hfree, ?_⟩
  rw [update_of_steps O rnd repo model po1 po2 cd cd1 cd2 h1 h2 h3 h4 h5 hfree]

/-- The identifiers of a model the update step returns, for operations that keep them. -/
theorem update_identifiers (O : ModelOps) (hO : KeepsIdentifiers O) (rnd : Bytes)
    (model po1 po2 : PurchaseOrderModel) (cd cd1 cd2 : coredocumentpb.CoreDocument)
    (h1 : O.calculateDataRoot { model with OrderAmount := 50 } = .ok po1)
    (h2 : O.PackCoreDocument po1 = .ok cd)
    (h3 : O.CalculateSigningRoot
      { cd with CurrentVersion := cd.NextVersion, NextVersion := rnd } = .ok cd1)
    (h4 : O.CalculateDocumentRoot cd1 = .ok cd2)
    (h5 : O.UnpackCoreDocument po1 cd2 = .ok po2) :
    po2.CoreDocument.DocumentIdentifier = model.CoreDocument.DocumentIdentifier ∧
      po2.CoreDocument.CurrentVersion = model.CoreDocument.NextVersion ∧
      po2.CoreDocument.NextVersion = rnd := by
  obtain ⟨a1, a2, a3⟩ := hO.dataRoot _ _ h1
  obtain ⟨b1, b2, b3⟩ := hO.pack _ _ h2
  obtain ⟨c1, c2, c3⟩ := hO.signingRoot _ _ h3
  obtain ⟨d1, d2, d3⟩ := hO.documentRoot _ _ h4
  obtain ⟨e1, e2, e3⟩ := hO.unpack _ _ _ h5
  simp only at a1 a2 a3 c1 c2 c3
  refine ⟨?_, ?_, ?_⟩
  · rw [e1, d1, c1, b1, a1]
  · rw [e2, d2, c2, b3, a3]
  · rw [e3, d3, c3]

/-- The sample operations keep the identifiers. -/
theorem sampleOps_keeps : KeepsIdentifiers sampleOps where
  dataRoot := by
    intro po po1 h
    simp only [sampleOps, Except.ok.injEq] at h
    subst h
    exact ⟨rfl, rfl, rfl⟩
  pack := by
    intro po cd h
    simp only [sampleOps, Except.ok.injEq] at h
    subst h
    exact ⟨rfl, rfl, rfl⟩
  signingRoot := by
    intro cd cd1 h
    simp only [sampleOps] at h
    split at h
    · cases h
    · cases h
      exact ⟨rfl, rfl, rfl⟩
  documentRoot := by
    intro cd cd1 h
    simp only [sampleOps] at h
    split at h
    · cases h
    · cases h
      exact ⟨rfl, rfl, rfl⟩
  unpack := by
    intro po cd po1 h
    simp only [sampleOps] at h
    split at h
    · cases h
    · split at h
      · cases h
        exact ⟨rfl, rfl, rfl⟩
      · cases h

end purchaseorder

/-! ## Field proofs -/

section FieldProofs

variable {D S T : Type}

/-- C1: `Invoice.CreateProofs` is all-or-nothing.  Whenever the call returns an error it
returns the nil slice with it, not the proofs gathered so far.  When the invoice's tree
builds and the requested list holds a name that is not a leaf of it (the library's
`CreateProof` fails on it), the call returns the nil slice and the error `CreateProof` gave
for the first such name in request order. -/
theorem createProofs_all_or_nothing (X : Externals D S T) (inv : Invoice D S)
    (fields : List String) :
    (∀ ps e, inv.CreateProofs X fields = .returned (ps, some e) → ps = []) ∧
      (∀ (doc : invoicepb.InvoiceDocument D S) (tree : T),
        inv.Document = some doc →
        X.FillTree (X.SetHashFunc X.NewDocumentTree) doc.Data doc.Salts = (tree, none) →
        (∃ f ∈ fields, ∃ e, X.CreateProof tree f = .error e) →
        ∃ pre f post err, fields = pre ++ f :: post ∧
          (∀ g ∈ pre, ∃ p, X.CreateProof tree g = .ok p) ∧
          X.CreateProof tree f = .error err ∧
          inv.CreateProofs X fields = .returned ([], some err)) := by
  constructor
  · intro ps e h
    unfold Invoice.CreateProofs at h
    cases htree : inv.getDocumentTree X with
    | nilPanic => simp [htree] at h
    | fatal m => simp [htree] at h
    | returned r =>
      cases r with
      | error err =>
        simp only [htree, Outcome.returned.injEq, Prod.mk.injEq] at h
        exact h.1.symm
      | ok tree =>
        simp only [htree, Outcome.returned.injEq] at h
        exact loop_error_nil X tree fields [] ps e h
  · intro doc tree hdoc htree hbad
    obtain ⟨pre, f, post, err, hsplit, hpre, hf⟩ := split_at_first_failure X tree fields hbad
    refine ⟨pre, f, post, err, hsplit, hpre, hf, ?_⟩
    have hloop := loop_first_failure X tree f post err hf pre [] hpre
    simp [Invoice.CreateProofs, getDocumentTree_of_filled X inv doc tree hdoc htree, hsplit,
      hloop]

/-- Witness of C1 on the sample invoice: two leaves and two unknown names. -/
theorem createProofs_all_or_nothing_witness :
    sample.invoice.CreateProofs sample.externals
        ["invoice_number", "bad", "gross_amount", "bad2"]
        = .returned ([], some "No such field: bad in obj") ∧
      ∃ pre f post err,
        ["invoice_number", "bad", "gross_amount", "bad2"] = pre ++ f :: post ∧
        (∀ g ∈ pre, ∃ p, sample.externals.CreateProof
          (merkle.build 2 (sample.leaves sample.data sample.salts)) g = .ok p) ∧
        sample.externals.CreateProof
          (merkle.build 2 (sample.leaves sample.data sample.salts)) f = .error err ∧
        sample.invoice.CreateProofs sample.externals
          ["invoice_number", "bad", "gross_amount", "bad2"] = .returned ([], some err) :=
  ⟨by decide,
    (createProofs_all_or_nothing sample.externals sample.invoice
      ["invoice_number", "bad", "gross_amount", "bad2"]).2
      { CoreDocument := some sample.coreDoc, Data := some sample.data,
        Salts := some sample.salts }
      (merkle.build 2 (sample.leaves sample.data sample.salts)) rfl rfl
      ⟨"bad2", by decide, "No such field: bad2 in obj", rfl⟩⟩

/-- C2: when the invoice's tree builds and every requested name is a leaf of it,
`Invoice.CreateProofs` returns no error and one proof per name in request order: the
result is as long as the request and its i-th proof is the one `CreateProof` gives for
the i-th name; with a library whose proof of a name carries that name as its property, the
properties of the result are the requested names. -/
theorem createProofs_one_proof_per_field (X : Externals D S T) (inv : Invoice D S)
    (doc : invoicepb.InvoiceDocument D S) (tree : T) (fields : List String)
    (hdoc : inv.Document = some doc)
    (htree : X.FillTree (X.SetHashFunc X.NewDocumentTree) doc.Data doc.Salts = (tree, none))
    (hleaf : ∀ f ∈ fields, ∃ p, X.CreateProof tree f = .ok p) :
    ∃ ps, inv.CreateProofs X fields = .returned (ps, none) ∧
      ps.length = fields.length ∧
      (∀ (i : Nat) (hf : i < fields.length) (hp : i < ps.length),
        X.CreateProof tree (fields.get ⟨i, hf⟩) = .ok (ps.get ⟨i, hp⟩)) ∧
      ((∀ f p, X.CreateProof tree f = .ok p → p.Property = f) →
        ps.map (fun p => p.Property) = fields) := by
  obtain ⟨ps, hloop, hall⟩ := loop_all_leaves X tree fields [] hleaf
  refine ⟨ps, ?_, hall.length_eq.symm, fun i hf hp => hall.get hf hp, ?_⟩
  · simpa [Invoice.CreateProofs, getDocumentTree_of_filled X inv doc tree hdoc htree]
      using hloop
  · intro hprop
    exact properties_of_forall₂ X tree hprop hall

/-- Witness of C2 on the sample invoice, both fields requested. -/
theorem createProofs_one_proof_per_field_witness :
    ∃ ps, sample.invoice.CreateProofs sample.externals ["invoice_number", "gross_amount"]
        = .returned (ps, none) ∧
      ps.length = ["invoice_number", "gross_amount"].length ∧
      (∀ (i : Nat) (hf : i < ["invoice_number", "gross_amount"].length) (hp : i < ps.length),
        sample.externals.CreateProof (merkle.build 2 (sample.leaves sample.data sample.salts))
          (["invoice_number", "gross_amount"].get ⟨i, hf⟩) = .ok (ps.get ⟨i, hp⟩)) ∧
      ((∀ f p, sample.externals.CreateProof
          (merkle.build 2 (sample.leaves sample.data sample.salts)) f = .ok p →
          p.Property = f) →
        ps.map (fun p => p.Property) = ["invoice_number", "gross_amount"]) :=
  createProofs_one_proof_per_field sample.externals sample.invoice
    { CoreDocument := some sample.coreDoc, Data := some sample.data,
      Salts := some sample.salts }
    (merkle.build 2 (sample.leaves sample.data sample.salts))
    ["invoice_number", "gross_amount"] rfl rfl
    (by
      intro f hf
      rcases List.mem_cons.mp hf with h | h
      · subst h
        exact ⟨_, rfl⟩
      · rcases List.mem_cons.mp h with h | h
        · subst h
          exact ⟨_, rfl⟩
        · cases h)

/-- C3: proof round trip.  With a library that keeps the contract of the salted field tree,
for an invoice with a core document whose tree builds, and names that are all fields of its
data: `Invoice.CreateProofs` returns the proofs of these names, `Invoice.CalculateMerkleRoot`
stores a root hash in the core document, and every returned proof verifies against the
stored root; the proofs are the same whether they are asked for before or after the root is
stored. -/
theorem createProofs_verify_against_stored_root (X : Externals D S T)
    (fieldNames : D → List String) (verifyField : proofs.Proof → Bytes → Bool)
    (hlib : SaltedFieldTreeContract X fieldNames verifyField)
    (inv : Invoice D S) (doc : invoicepb.InvoiceDocument D S)
    (cd : coredocumentpb.CoreDocument) (d : D) (tree : T) (fields : List String)
    (hdoc : inv.Document = some doc) (hcd : doc.CoreDocument = some cd)
    (hdata : doc.Data = some d)
    (htree : X.FillTree (X.SetHashFunc X.NewDocumentTree) doc.Data doc.Salts = (tree, none))
    (hfields : ∀ f ∈ fields, f ∈ fieldNames d) :
    ∃ ps inv1 cd1, inv.CreateProofs X fields = .returned (ps, none) ∧
      inv.CalculateMerkleRoot X = .returned (inv1, none) ∧
      inv1.Document.bind (fun doc1 => doc1.CoreDocument) = some cd1 ∧
      inv1.CreateProofs X fields = .returned (ps, none) ∧
      ps.map (fun p => p.Property) = fields ∧
      ∀ p ∈ ps, verifyField p cd1.DocumentRoot = true := by
  have hleaf : ∀ f ∈ fields, ∃ p, X.CreateProof tree f = .ok p := fun f hf =>
    hlib.field_is_leaf (X.SetHashFunc X.NewDocumentTree) d doc.Salts tree
      (by rw [← hdata]; exact htree) f (hfields f hf)
  obtain ⟨ps, hloop, hall⟩ := loop_all_leaves X tree fields [] hleaf
  have hproofs : inv.CreateProofs X fields = .returned (ps, none) := by
    simpa [Invoice.CreateProofs, getDocumentTree_of_filled X inv doc tree hdoc htree]
      using hloop
  refine ⟨ps, _, { cd with DocumentRoot := X.RootHash tree }, hproofs,
    calculateMerkleRoot_of_filled X inv doc cd tree hdoc hcd htree, rfl, ?_,
    properties_of_forall₂ X tree (hlib.property_eq tree) hall, ?_⟩
  · rw [← hproofs]
    exact createProofs_congr X inv _ fields
      (getDocumentTree_congr X inv _ doc _ hdoc rfl rfl rfl)
  · intro p hp
    obtain ⟨f, _, hf⟩ := forall₂_right_partner hall p hp
    exact hlib.round_trip tree f p hf

/-- Witness of C3: the sample invoice, both fields, the tree of the spec with the sample
hash. -/
theorem createProofs_verify_against_stored_root_witness :
    ∃ ps inv1 cd1,
      sample.invoice.CreateProofs sample.externals ["gross_amount", "invoice_number"]
        = .returned (ps, none) ∧
      sample.invoice.CalculateMerkleRoot sample.externals = .returned (inv1, none) ∧
      inv1.Document.bind (fun doc1 => doc1.CoreDocument) = some cd1 ∧
      inv1.CreateProofs sample.externals ["gross_amount", "invoice_number"]
        = .returned (ps, none) ∧
      ps.map (fun p => p.Property) = ["gross_amount", "invoice_number"] ∧
      ∀ p ∈ ps, merkle.verifyField sample.hash p cd1.DocumentRoot = true :=
  createProofs_verify_against_stored_root sample.externals sample.fieldNames
    (merkle.verifyField sample.hash) sample.contract sample.invoice
    { CoreDocument := some sample.coreDoc, Data := some sample.data,
      Salts := some sample.salts }
    sample.coreDoc sample.data (merkle.build 2 (sample.leaves sample.data sample.salts))
    ["gross_amount", "invoice_number"] rfl rfl rfl rfl (by decide)

/-- C5: on the sample invoice, whose tree builds and whose core document has no data root,
`Invoice.CalculateMerkleRoot` succeeds and assigns the root hash of the tree to the core
document's `DocumentRoot`; the data root is still nil after the call. -/
theorem calculateMerkleRoot_leaves_dataRoot_nil :
    sample.coreDoc.DataRoot = [] ∧
      sample.externals.FillTree (sample.externals.SetHashFunc sample.externals.NewDocumentTree)
        (some sample.data) (some sample.salts)
        = (merkle.build 2 (sample.leaves sample.data sample.salts), none) ∧
      sample.externals.RootHash (merkle.build 2 (sample.leaves sample.data sample.salts))
        = [35303] ∧
      sample.invoice.CalculateMerkleRoot sample.externals = .returned
        ({ Document := some
            { CoreDocument := some
                { DocumentIdentifier := [1, 2, 3], CurrentVersion := [1, 2, 3],
                  NextVersion := [4, 5, 6], DataRoot := [], DocumentRoot := [35303] },
              Data := some sample.data, Salts := some sample.salts } }, none) := by
  decide

end FieldProofs

/-! ## Pack and unpack -/

section PackUnpack

variable {D S T : Type}

/-- C6: pack / unpack round trip.  For an invoice with core document, data and salts
present, when the data and the salts serialize and decoding the serialized bytes gives
them back, `NewInvoiceFromCoreDocument` applied to what `ConvertToCoreDocument` returns
gives an invoice with the same data, the same salts, and the core document with the
embedded data and embedded salts cleared. -/
theorem pack_unpack_round_trip (X : Externals D S T) (rnd : Bytes) (inv : Invoice D S)
    (doc : invoicepb.InvoiceDocument D S) (cd : coredocumentpb.CoreDocument) (d : D) (s : S)
    (bd bs : Bytes) (hdoc : inv.Document = some doc) (hcd : doc.CoreDocument = some cd)
    (hdata : doc.Data = some d) (hsalts : doc.Salts = some s)
    (hmd : X.MarshalData (some d) = .ok bd)
    (hud : X.UnmarshalData bd X.zeroData = (d, none))
    (hms : X.MarshalSalts (some s) = .ok bs)
    (hus : X.UnmarshalSalts bs X.zeroSalts = (s, none)) :
    ∃ packed, inv.ConvertToCoreDocument X = .returned packed ∧
      NewInvoiceFromCoreDocument X rnd (some packed) = .returned
        { Document := some
            { CoreDocument := some { cd with EmbeddedData := none, EmbeddedDataSalts := none }
              Data := some d
              Salts := some s } } := by
  refine ⟨_, convertToCoreDocument_of_marshalled X inv doc bd bs hdoc
    (by rw [hdata]; exact hmd) (by rw [hsalts]; exact hms), ?_⟩
  rw [newInvoiceFromCoreDocument_of_tags X rnd _ _
    { TypeUrl := X.InvoiceDataTypeUrl, Value := bd }
    { TypeUrl := X.InvoiceSaltsTypeUrl, Value := bs } rfl rfl rfl rfl rfl]
  simp [hcd, merge_zero, hud, hus]

/-- Witness of C6 on the sample invoice and the sample wire format. -/
theorem pack_unpack_round_trip_witness :
    ∃ packed, sample.invoice.ConvertToCoreDocument sample.externals = .returned packed ∧
      NewInvoiceFromCoreDocument sample.externals [7, 7] (some packed) = .returned
        { Document := some
            { CoreDocument := some
                { sample.coreDoc with EmbeddedData := none, EmbeddedDataSalts := none }
              Data := some sample.data
              Salts := some sample.salts } } :=
  pack_unpack_round_trip sample.externals [7, 7] sample.invoice
    { CoreDocument := some sample.coreDoc, Data := some sample.data,
      Salts := some sample.salts }
    sample.coreDoc sample.data sample.salts [4, 73, 78, 86, 49, 42] [2, 11, 12, 13, 14]
    rfl rfl rfl rfl rfl rfl rfl rfl

/-- C7: unpacking fails on a type-tag mismatch and only then.  For a core document with
embedded data and embedded salts present, `NewInvoiceFromCoreDocument` ends in the fatal
log of the schema check exactly when one of the two type URLs is not the invoice one, and
returns an invoice exactly when both are; every core document that `ConvertToCoreDocument`
returns is accepted. -/
theorem unpack_fails_iff_type_mismatch (X : Externals D S T) (rnd : Bytes)
    (cd : coredocument.CoreDocument) (doc : coredocumentpb.CoreDocument) (ed es : any.Any)
    (hdoc : cd.Document = some doc) (hed : doc.EmbeddedData = some ed)
    (hes : doc.EmbeddedDataSalts = some es) :
    (NewInvoiceFromCoreDocument X rnd (some cd) = .fatal incorrectSchemaMsg ↔
        (ed.TypeUrl ≠ X.InvoiceDataTypeUrl ∨ es.TypeUrl ≠ X.InvoiceSaltsTypeUrl)) ∧
      ((NewInvoiceFromCoreDocument X rnd (some cd)).isReturned = true ↔
        ¬ (ed.TypeUrl ≠ X.InvoiceDataTypeUrl ∨ es.TypeUrl ≠ X.InvoiceSaltsTypeUrl)) ∧
      (∀ (inv : Invoice D S) (packed : coredocument.CoreDocument),
        inv.ConvertToCoreDocument X = .returned packed →
        (NewInvoiceFromCoreDocument X rnd (some packed)).isReturned = true) := by
  have hpacked : ∀ (inv : Invoice D S) (packed : coredocument.CoreDocument),
      inv.ConvertToCoreDocument X = .returned packed →
      (NewInvoiceFromCoreDocument X rnd (some packed)).isReturned = true := by
    intro inv packed h
    obtain ⟨pdoc, bd, bs, h1, h2, h3⟩ := convertToCoreDocument_tags X inv packed h
    rw [newInvoiceFromCoreDocument_of_tags X rnd packed pdoc _ _ h1 h2 h3 rfl rfl]
    rfl
  by_cases hbad : ed.TypeUrl ≠ X.InvoiceDataTypeUrl ∨ es.TypeUrl ≠ X.InvoiceSaltsTypeUrl
  · have h := newInvoiceFromCoreDocument_of_mismatch X rnd cd doc ed es hdoc hed hes hbad
    refine ⟨⟨fun _ => hbad, fun _ => h⟩, ⟨fun hr => ?_, fun hn => absurd hbad hn⟩, hpacked⟩
    rw [h] at hr
    cases hr
  · have hdt : ed.TypeUrl = X.InvoiceDataTypeUrl := by
      by_contra hne
      exact hbad (Or.inl hne)
    have hst : es.TypeUrl = X.InvoiceSaltsTypeUrl := by
      by_contra hne
      exact hbad (Or.inr hne)
    have h := newInvoiceFromCoreDocument_of_tags X rnd cd doc ed es hdoc hed hes hdt hst
    refine ⟨⟨fun hf => ?_, fun hb => absurd hb hbad⟩, ⟨fun _ => hbad, fun _ => ?_⟩, hpacked⟩
    · rw [h] at hf
      cases hf
    · rw [h]
      rfl

/-- Witness of C7 on a sample core document with a foreign data type URL. -/
theorem unpack_fails_iff_type_mismatch_witness :
    (NewInvoiceFromCoreDocument sample.externals [] (some sample.mismatched)
        = .fatal incorrectSchemaMsg ↔
        ("purchaseorder.PurchaseOrderData" ≠ sample.externals.InvoiceDataTypeUrl ∨
          "invoice.InvoiceDataSalts" ≠ sample.externals.InvoiceSaltsTypeUrl)) ∧
      ((NewInvoiceFromCoreDocument sample.externals [] (some sample.mismatched)).isReturned
        = true ↔
        ¬ ("purchaseorder.PurchaseOrderData" ≠ sample.externals.InvoiceDataTypeUrl ∨
          "invoice.InvoiceDataSalts" ≠ sample.externals.InvoiceSaltsTypeUrl)) ∧
      (∀ (inv : Invoice sample.InvoiceData sample.InvoiceDataSalts)
        (packed : coredocument.CoreDocument),
        inv.ConvertToCoreDocument sample.externals = .returned packed →
        (NewInvoiceFromCoreDocument sample.externals [] (some packed)).isReturned = true) :=
  unpack_fails_iff_type_mismatch sample.externals [] sample.mismatched
    { DocumentIdentifier := [1, 2, 3], CurrentVersion := [1, 2, 3], NextVersion := [4, 5, 6],
      EmbeddedData :=
        some { TypeUrl := "purchaseorder.PurchaseOrderData", Value := [4, 73, 78, 86, 49, 42] },
      EmbeddedDataSalts :=
        some { TypeUrl := "invoice.InvoiceDataSalts", Value := [2, 11, 12, 13, 14] } }
    { TypeUrl := "purchaseorder.PurchaseOrderData", Value := [4, 73, 78, 86, 49, 42] }
    { TypeUrl := "invoice.InvoiceDataSalts", Value := [2, 11, 12, 13, 14] } rfl rfl rfl

/-- C8, as stated, fails: on the sample core document whose embedded data carries a foreign
type URL, `NewInvoiceFromCoreDocument` does not come back to its caller with an error, it
ends the process through the fatal log. -/
theorem unpack_mismatch_is_fatal_counterexample :
    NewInvoiceFromCoreDocument sample.externals [] (some sample.mismatched)
        = .fatal "Trying to convert document with incorrect schema" ∧
      (NewInvoiceFromCoreDocument sample.externals [] (some sample.mismatched)).isFatal = true ∧
      (NewInvoiceFromCoreDocument sample.externals [] (some sample.mismatched)).isReturned
        = false := by
  decide

/-- C8, amended: the failures of pack and unpack are fatal to the process.  On a type-tag
mismatch `NewInvoiceFromCoreDocument` ends in the fatal log of the schema check, and when
serializing the data or the salts fails `ConvertToCoreDocument` ends in the fatal log of
that failure; in neither case does the call come back to its caller. -/
theorem pack_unpack_failures_are_fatal (X : Externals D S T) (rnd : Bytes)
    (cd : coredocument.CoreDocument) (doc : coredocumentpb.CoreDocument) (ed es : any.Any)
    (inv : Invoice D S) (idoc : invoicepb.InvoiceDocument D S)
    (hdoc : cd.Document = some doc) (hed : doc.EmbeddedData = some ed)
    (hes : doc.EmbeddedDataSalts = some es) (hidoc : inv.Document = some idoc) :
    ((ed.TypeUrl ≠ X.InvoiceDataTypeUrl ∨ es.TypeUrl ≠ X.InvoiceSaltsTypeUrl) →
        NewInvoiceFromCoreDocument X rnd (some cd) = .fatal incorrectSchemaMsg) ∧
      (∀ err, X.MarshalData idoc.Data = .error err →
        inv.ConvertToCoreDocument X = .fatal ("Could not serialize InvoiceData: " ++ err)) ∧
      (∀ bd err, X.MarshalData idoc.Data = .ok bd → X.MarshalSalts idoc.Salts = .error err →
        inv.ConvertToCoreDocument X = .fatal ("Could not serialize InvoiceSalts: " ++ err)) := by
  refine ⟨newInvoiceFromCoreDocument_of_mismatch X rnd cd doc ed es hdoc hed hes, ?_, ?_⟩
  · intro err h
    simp [Invoice.ConvertToCoreDocument, hidoc, h]
  · intro bd err h1 h2
    simp [Invoice.ConvertToCoreDocument, hidoc, h1, h2]

/-- Witness of the amended C8: the mismatched sample core document, and sample invoices
without data and without salts. -/
theorem pack_unpack_failures_are_fatal_witness :
    NewInvoiceFromCoreDocument sample.externals [] (some sample.mismatched)
        = .fatal incorrectSchemaMsg ∧
      Invoice.ConvertToCoreDocument sample.externals
          { Document := some
              { CoreDocument := some sample.coreDoc, Data := none, Salts := some sample.salts } }
        = .fatal "Could not serialize InvoiceData: proto: Marshal called with nil" ∧
      Invoice.ConvertToCoreDocument sample.externals { Document := some sample.unsalted }
        = .fatal "Could not serialize InvoiceSalts: proto: Marshal called with nil" :=
  ⟨(pack_unpack_failures_are_fatal sample.externals [] sample.mismatched
      { DocumentIdentifier := [1, 2, 3], CurrentVersion := [1, 2, 3], NextVersion := [4, 5, 6],
        EmbeddedData :=
          some { TypeUrl := "purchaseorder.PurchaseOrderData",
                 Value := [4, 73, 78, 86, 49, 42] },
        EmbeddedDataSalts :=
          some { TypeUrl := "invoice.InvoiceDataSalts", Value := [2, 11, 12, 13, 14] } }
      { TypeUrl := "purchaseorder.PurchaseOrderData", Value := [4, 73, 78, 86, 49, 42] }
      { TypeUrl := "invoice.InvoiceDataSalts", Value := [2, 11, 12, 13, 14] }
      sample.invoice
      { CoreDocument := some sample.coreDoc, Data := some sample.data,
        Salts := some sample.salts }
      rfl rfl rfl rfl).1 (Or.inl (by decide)),
    (pack_unpack_failures_are_fatal sample.externals [] sample.packed
      { DocumentIdentifier := [1, 2, 3], CurrentVersion := [1, 2, 3], NextVersion := [4, 5, 6],
        EmbeddedData :=
          some { TypeUrl := "invoice.InvoiceData", Value := [4, 73, 78, 86, 49, 42] },
        EmbeddedDataSalts :=
          some { TypeUrl := "invoice.InvoiceDataSalts", Value := [2, 11, 12, 13, 14] } }
      { TypeUrl := "invoice.InvoiceData", Value := [4, 73, 78, 86, 49, 42] }
      { TypeUrl := "invoice.InvoiceDataSalts", Value := [2, 11, 12, 13, 14] }
      { Document := some
          { CoreDocument := some sample.coreDoc, Data := none, Salts := some sample.salts } }
      { CoreDocument := some sample.coreDoc, Data := none, Salts := some sample.salts }
      rfl rfl rfl rfl).2.1 "proto: Marshal called with nil" rfl,
    (pack_unpack_failures_are_fatal sample.externals [] sample.packed
      { DocumentIdentifier := [1, 2, 3], CurrentVersion := [1, 2, 3], NextVersion := [4, 5, 6],
        EmbeddedData :=
          some { TypeUrl := "invoice.InvoiceData", Value := [4, 73, 78, 86, 49, 42] },
        EmbeddedDataSalts :=
          some { TypeUrl := "invoice.InvoiceDataSalts", Value := [2, 11, 12, 13, 14] } }
      { TypeUrl := "invoice.InvoiceData", Value := [4, 73, 78, 86, 49, 42] }
      { TypeUrl := "invoice.InvoiceDataSalts", Value := [2, 11, 12, 13, 14] }
      { Document := some sample.unsalted } sample.unsalted
      rfl rfl rfl rfl).2.2 [4, 73, 78, 86, 49, 42] "proto: Marshal called with nil" rfl rfl⟩

/-- C9: on the sample core document with the right type URLs whose embedded data is the
single byte 255, decoding the data reports an error, and `NewInvoiceFromCoreDocument`
returns an invoice all the same, with what the failed decode left as its data. -/
theorem unpack_drops_decode_error :
    sample.externals.UnmarshalData [255] sample.externals.zeroData
        = ({ InvoiceNumber := [], GrossAmount := 0 }, some "unexpected EOF") ∧
      NewInvoiceFromCoreDocument sample.externals [] (some sample.undecodable) = .returned
        { Document := some
            { CoreDocument := some sample.coreDoc
              Data := some { InvoiceNumber := [], GrossAmount := 0 }
              Salts := some sample.salts } } := by
  decide

/-- C10: salts are generated once.  `NewInvoice` on a document that carries salts returns
the invoice wrapping that very document; on a document without salts it returns the
document with the freshly filled salts and the same data and core document; and
`NewInvoice` applied to the document of its own result returns that result again,
whatever the entropy. -/
theorem newInvoice_generates_salts_once (X : Externals D S T) (rnd rnd2 : Bytes)
    (invDoc : invoicepb.InvoiceDocument D S) :
    (∀ s, invDoc.Salts = some s →
        NewInvoice X rnd (some invDoc) = .returned { Document := some invDoc }) ∧
      (invDoc.Salts = none →
        NewInvoice X rnd (some invDoc) = .returned
          { Document := some
              { CoreDocument := invDoc.CoreDocument
                Data := invDoc.Data
                Salts := some (X.FillSalts rnd X.zeroSalts) } }) ∧
      (∀ inv, NewInvoice X rnd (some invDoc) = .returned inv →
        NewInvoice X rnd2 inv.Document = .returned inv) := by
  cases hs : invDoc.Salts with
  | some s =>
    have h : NewInvoice X rnd (some invDoc) = .returned { Document := some invDoc } := by
      simp [NewInvoice, hs]
    refine ⟨fun _ _ => h, fun hn => (by cases hn), ?_⟩
    intro inv hinv
    rw [h] at hinv
    cases hinv
    simp [NewInvoice, hs]
  | none =>
    have h : NewInvoice X rnd (some invDoc) = .returned
        { Document := some
            { CoreDocument := invDoc.CoreDocument
              Data := invDoc.Data
              Salts := some (X.FillSalts rnd X.zeroSalts) } } := by
      simp [NewInvoice, hs]
    refine ⟨fun s hn => (by cases hn), fun _ => h, ?_⟩
    intro inv hinv
    rw [h] at hinv
    cases hinv
    simp [NewInvoice]

/-- Witness of C10 on the sample invoice document, with salts and without. -/
theorem newInvoice_generates_salts_once_witness :
    NewInvoice sample.externals [1, 2, 3]
        (some { CoreDocument := some sample.coreDoc, Data := some sample.data,
                Salts := some sample.salts })
        = .returned sample.invoice ∧
      NewInvoice sample.externals [1, 2, 3] (some sample.unsalted) = .returned
        { Document := some
            { CoreDocument := some sample.coreDoc
              Data := some sample.data
              Salts := some { InvoiceNumber := [1, 2, 3], GrossAmount := [] } } } ∧
      NewInvoice sample.externals [9]
        (some { CoreDocument := some sample.coreDoc
                Data := some sample.data
                Salts := some { InvoiceNumber := [1, 2, 3], GrossAmount := [] } })
        = .returned
          { Document := some
              { CoreDocument := some sample.coreDoc
                Data := some sample.data
                Salts := some { InvoiceNumber := [1, 2, 3], GrossAmount := [] } } } :=
  ⟨(newInvoice_generates_salts_once sample.externals [1, 2, 3] [9]
      { CoreDocument := some sample.coreDoc, Data := some sample.data,
        Salts := some sample.salts }).1 sample.salts rfl,
    (newInvoice_generates_salts_once sample.externals [1, 2, 3] [9] sample.unsalted).2.1 rfl,
    (newInvoice_generates_salts_once sample.externals [1, 2, 3] [9] sample.unsalted).2.2
      { Document := some
          { CoreDocument := some sample.coreDoc
            Data := some sample.data
            Salts := some { InvoiceNumber := [1, 2, 3], GrossAmount := [] } } } rfl⟩

end PackUnpack

/-! ## Frame of the data root and safety of unpacking -/

section FrameAndSafety

variable {D S T : Type}

/-- C13: `Invoice.CalculateMerkleRoot` writes exactly one field.  When filling the tree
fails, the call returns that error and the invoice as it was.  When the tree fills (and the
core document is there to be written), the call returns no error, the data and the salts
are the same, the root field it assigns, `DocumentRoot`, holds the root hash of the tree,
and every other field of the core document is the same. -/
theorem calculateMerkleRoot_writes_one_field (X : Externals D S T) (inv : Invoice D S)
    (doc : invoicepb.InvoiceDocument D S) (hdoc : inv.Document = some doc) :
    (∀ (t : T) (err : GoError),
        X.FillTree (X.SetHashFunc X.NewDocumentTree) doc.Data doc.Salts = (t, some err) →
        inv.CalculateMerkleRoot X = .returned (inv, some err)) ∧
      (∀ (tree : T) (cd : coredocumentpb.CoreDocument),
        X.FillTree (X.SetHashFunc X.NewDocumentTree) doc.Data doc.Salts = (tree, none) →
        doc.CoreDocument = some cd →
        ∃ cd1, inv.CalculateMerkleRoot X = .returned
            ({ Document := some
                { CoreDocument := some cd1, Data := doc.Data, Salts := doc.Salts } }, none) ∧
          cd1.DocumentRoot = X.RootHash tree ∧
          { cd1 with DocumentRoot := cd.DocumentRoot } = cd) := by
  constructor
  · intro t err hfill
    simp [Invoice.CalculateMerkleRoot, getDocumentTree_of_failed X inv doc t err hdoc hfill]
  · intro tree cd hfill hcd
    exact ⟨{ cd with DocumentRoot := X.RootHash tree },
      calculateMerkleRoot_of_filled X inv doc cd tree hdoc hcd hfill, rfl, rfl⟩

/-- Witness of C13: the sample invoice without data, whose tree fails, and the sample
invoice, whose tree fills. -/
theorem calculateMerkleRoot_writes_one_field_witness :
    sample.dataless.CalculateMerkleRoot sample.externals
        = .returned (sample.dataless, some "nil message") ∧
      ∃ cd1, sample.invoice.CalculateMerkleRoot sample.externals = .returned
          ({ Document := some
              { CoreDocument := some cd1, Data := some sample.data,
                Salts := some sample.salts } }, none) ∧
        cd1.DocumentRoot
          = sample.externals.RootHash (merkle.build 2 (sample.leaves sample.data sample.salts)) ∧
        { cd1 with DocumentRoot := sample.coreDoc.DocumentRoot } = sample.coreDoc :=
  ⟨(calculateMerkleRoot_writes_one_field sample.externals sample.dataless
      { CoreDocument := some sample.coreDoc, Data := none, Salts := some sample.salts }
      rfl).1 none "nil message" rfl,
    (calculateMerkleRoot_writes_one_field sample.externals sample.invoice
      { CoreDocument := some sample.coreDoc, Data := some sample.data,
        Salts := some sample.salts }
      rfl).2 (merkle.build 2 (sample.leaves sample.data sample.salts)) sample.coreDoc rfl rfl⟩

/-- C14, as stated, fails: on the sample core document whose embedded data carries a foreign
type URL and whose embedded salts are absent, the type-tag check does not dereference the
absent salts, it ends in the type-mismatch failure. -/
theorem unpack_absent_salts_counterexample :
    ((sample.foreignWithoutSalts.Document.bind (fun doc => doc.EmbeddedDataSalts)) = none) ∧
      NewInvoiceFromCoreDocument sample.externals [] (some sample.foreignWithoutSalts)
        = .fatal "Trying to convert document with incorrect schema" ∧
      NewInvoiceFromCoreDocument sample.externals [] (some sample.foreignWithoutSalts)
        ≠ .nilPanic := by
  decide

/-- C14, amended: with embedded data and embedded salts both present,
`NewInvoiceFromCoreDocument` returns an invoice or ends in the type-mismatch failure and
dereferences no absent value.  With the embedded data absent, or with the embedded data
carrying the invoice type URL and the embedded salts absent, the type-tag check dereferences
an absent value.  With the embedded data carrying another type URL, the check ends in the
type-mismatch failure before it looks at the salts, absent or not. -/
theorem unpack_safe_under_presence (X : Externals D S T) (rnd : Bytes)
    (cd : coredocument.CoreDocument) (doc : coredocumentpb.CoreDocument)
    (hdoc : cd.Document = some doc) :
    (∀ ed es, doc.EmbeddedData = some ed → doc.EmbeddedDataSalts = some es →
        (∃ inv, NewInvoiceFromCoreDocument X rnd (some cd) = .returned inv) ∨
          NewInvoiceFromCoreDocument X rnd (some cd) = .fatal incorrectSchemaMsg) ∧
      (doc.EmbeddedData = none →
        NewInvoiceFromCoreDocument X rnd (some cd) = .nilPanic) ∧
      (∀ ed, doc.EmbeddedData = some ed → ed.TypeUrl = X.InvoiceDataTypeUrl →
        doc.EmbeddedDataSalts = none →
        NewInvoiceFromCoreDocument X rnd (some cd) = .nilPanic) ∧
      (∀ ed, doc.EmbeddedData = some ed → ed.TypeUrl ≠ X.InvoiceDataTypeUrl →
        NewInvoiceFromCoreDocument X rnd (some cd) = .fatal incorrectSchemaMsg) := by
  refine ⟨?_, ?_, ?_, ?_⟩
  · intro ed es hed hes
    by_cases hbad : ed.TypeUrl ≠ X.InvoiceDataTypeUrl ∨ es.TypeUrl ≠ X.InvoiceSaltsTypeUrl
    · exact Or.inr (newInvoiceFromCoreDocument_of_mismatch X rnd cd doc ed es hdoc hed hes hbad)
    · have hdt : ed.TypeUrl = X.InvoiceDataTypeUrl := by
        by_contra hne
        exact hbad (Or.inl hne)
      have hst : es.TypeUrl = X.InvoiceSaltsTypeUrl := by
        by_contra hne
        exact hbad (Or.inr hne)
      exact Or.inl ⟨_, newInvoiceFromCoreDocument_of_tags X rnd cd doc ed es hdoc hed hes
        hdt hst⟩
  · intro hed
    simp [NewInvoiceFromCoreDocument, hdoc, hed]
  · intro ed hed hdt hes
    simp [NewInvoiceFromCoreDocument, hdoc, hed, hdt, hes]
  · intro ed hed hdt
    simp [NewInvoiceFromCoreDocument, hdoc, hed, hdt]

/-- Witness of the amended C14 on four sample core documents: packed, without data, without
salts, and with foreign data and no salts. -/
theorem unpack_safe_under_presence_witness :
    ((∃ inv, NewInvoiceFromCoreDocument sample.externals [] (some sample.packed)
          = .returned inv) ∨
        NewInvoiceFromCoreDocument sample.externals [] (some sample.packed)
          = .fatal incorrectSchemaMsg) ∧
      NewInvoiceFromCoreDocument sample.externals [] (some sample.withoutData) = .nilPanic ∧
      NewInvoiceFromCoreDocument sample.externals [] (some sample.withoutSalts) = .nilPanic ∧
      NewInvoiceFromCoreDocument sample.externals [] (some sample.foreignWithoutSalts)
        = .fatal incorrectSchemaMsg :=
  ⟨(unpack_safe_under_presence sample.externals [] sample.packed _ rfl).1
      { TypeUrl := "invoice.InvoiceData", Value := [4, 73, 78, 86, 49, 42] }
      { TypeUrl := "invoice.InvoiceDataSalts", Value := [2, 11, 12, 13, 14] } rfl rfl,
    (unpack_safe_under_presence sample.externals [] sample.withoutData _ rfl).2.1 rfl,
    (unpack_safe_under_presence sample.externals [] sample.withoutSalts _ rfl).2.2.1
      { TypeUrl := "invoice.InvoiceData", Value := [4, 73, 78, 86, 49, 42] } rfl rfl rfl,
    (unpack_safe_under_presence sample.externals [] sample.foreignWithoutSalts _ rfl).2.2.2
      { TypeUrl := "purchaseorder.PurchaseOrderData", Value := [4, 73, 78, 86, 49, 42] } rfl
      (by decide)⟩

end FrameAndSafety

/-! ## Version chain -/

namespace purchaseorder

/-- C11: version transition.  For operations that keep the identifiers, a model that the
update step `updatedAnchoredMockDocument` returns has the prior model's next version as
its current version and the same document identifier, and is stored under its current
version.  Whatever the step returns, every record stored before it, the one under the old
current version among them, is still retrievable unchanged, and a proof that could be
produced for a version before the step is produced unchanged after it and reports the
requested version and document identifiers.  The step does return a model when each
operation it calls succeeds and nothing is stored under the prior next version. -/
theorem update_version_transition (O : ModelOps) (hO : KeepsIdentifiers O) (E : ProofEnv)
    (rnd : Bytes) (repo : Repository) (model : PurchaseOrderModel) :
    (∀ updated, (updatedAnchoredMockDocument O rnd repo model).1 = .ok updated →
        updated.CoreDocument.CurrentVersion = model.CoreDocument.NextVersion ∧
        updated.CoreDocument.DocumentIdentifier = model.CoreDocument.DocumentIdentifier ∧
        (updatedAnchoredMockDocument O rnd repo model).2.Get updated.CoreDocument.CurrentVersion
          = .ok updated) ∧
      (∀ key rec, repo.Get key = .ok rec →
        (updatedAnchoredMockDocument O rnd repo model).2.Get key = .ok rec) ∧
      (∀ documentID version fields p,
        CreateProofsForVersion E repo documentID version fields = .ok p →
        CreateProofsForVersion E (updatedAnchoredMockDocument O rnd repo model).2
            documentID version fields = .ok p ∧
          p.DocumentId = documentID ∧ p.VersionId = version) ∧
      (∀ po1 cd cd1 cd2 po2,
        O.calculateDataRoot { model with OrderAmount := 50 } = .ok po1 →
        O.PackCoreDocument po1 = .ok cd →
        O.CalculateSigningRoot { cd with CurrentVersion := cd.NextVersion, NextVersion := rnd }
          = .ok cd1 →
        O.CalculateDocumentRoot cd1 = .ok cd2 →
        O.UnpackCoreDocument po1 cd2 = .ok po2 →
        repo.Exists model.CoreDocument.NextVersion = false →
        (updatedAnchoredMockDocument O rnd repo model).1 = .ok po2) := by
  have hkeep : ∀ key rec, repo.Get key = .ok rec →
      (updatedAnchoredMockDocument O rnd repo model).2.Get key = .ok rec := by
    intro key rec hget
    rcases update_repository O rnd repo model with h | ⟨id, po, hfree, h⟩
    · rw [h]
      exact hget
    · rw [h]
      exact get_cons_of_get repo id key po rec hfree hget
  refine ⟨?_, hkeep, ?_, ?_⟩
  · intro updated h
    obtain ⟨po1, cd, cd1, cd2, h1, h2, h3, h4, h5, _, hrepo⟩ :=
      update_ok_steps O rnd repo model updated h
    obtain ⟨hid, hcur, _⟩ := update_identifiers O hO rnd model po1 updated cd cd1 cd2
      h1 h2 h3 h4 h5
    refine ⟨hcur, hid, ?_⟩
    rw [hrepo]
    exact get_cons_self repo _ updated
  · intro documentID version fields p hp
    obtain ⟨⟨rec, hrec⟩, hd, hv⟩ :=
      get_of_createProofsForVersion E repo documentID version fields p hp
    refine ⟨?_, hd, hv⟩
    rw [createProofsForVersion_congr E repo _ documentID version fields
      (by rw [hkeep version rec hrec, hrec])]
    exact hp
  · intro po1 cd cd1 cd2 po2 h1 h2 h3 h4 h5 hfree
    obtain ⟨_, hcur, _⟩ := update_identifiers O hO rnd model po1 po2 cd cd1 cd2
      h1 h2 h3 h4 h5
    rw [update_of_steps O rnd repo model po1 po2 cd cd1 cd2 h1 h2 h3 h4 h5
      (by rw [hcur]; exact hfree)]

/-- Witness of C11: the sample anchored model, stored under version `[1]`, is updated with
fresh next version `[3]`; the old record and the proof for version `[1]` are as before. -/
theorem update_version_transition_witness :
    (sampleUpdated.CoreDocument.CurrentVersion = sampleModel.CoreDocument.NextVersion ∧
        sampleUpdated.CoreDocument.DocumentIdentifier
          = sampleModel.CoreDocument.DocumentIdentifier ∧
        (updatedAnchoredMockDocument sampleOps [3] sampleRepo sampleModel).2.Get
            sampleUpdated.CoreDocument.CurrentVersion = .ok sampleUpdated) ∧
      (updatedAnchoredMockDocument sampleOps [3] sampleRepo sampleModel).2.Get [1]
        = .ok sampleModel ∧
      (∃ p, CreateProofsForVersion sampleEnv
            (updatedAnchoredMockDocument sampleOps [3] sampleRepo sampleModel).2 [1] [1]
            ["po_number"] = .ok p ∧
        p.DocumentId = [1] ∧ p.VersionId = [1]) ∧
      (updatedAnchoredMockDocument sampleOps [3] sampleRepo sampleModel).1
        = .ok sampleUpdated :=
  ⟨(update_version_transition sampleOps sampleOps_keeps sampleEnv [3] sampleRepo
      sampleModel).1 sampleUpdated rfl,
    (update_version_transition sampleOps sampleOps_keeps sampleEnv [3] sampleRepo
      sampleModel).2.1 [1] sampleModel rfl,
    ⟨_, (update_version_transition sampleOps sampleOps_keeps sampleEnv [3] sampleRepo
      sampleModel).2.2.1 [1] [1] ["po_number"]
      { DocumentId := [1], VersionId := [1],
        FieldProofs :=
          [{ Property := "po_number", Value := [116, 101, 115, 116, 95, 112, 111],
             Salt := [], SortedHashes := [[36686]] }] } rfl⟩,
    (update_version_transition sampleOps sampleOps_keeps sampleEnv [3] sampleRepo
      sampleModel).2.2.2 _ _ _ _ sampleUpdated rfl rfl rfl rfl rfl rfl⟩

/-- C12: `GetVersion` never answers with an unrelated record.  When a record is stored
under the version and its document identifier is not the requested one, `GetVersion`
returns no model and fails with the message that the version is not valid for this
identifier; when its document identifier is the requested one, `GetVersion` returns that
record. -/
theorem getVersion_rejects_unrelated_record (repo : Repository) (documentID version : Bytes)
    (rec : PurchaseOrderModel) (hrec : repo.Get version = .ok rec) :
    (rec.CoreDocument.DocumentIdentifier ≠ documentID →
        GetVersion repo documentID version = .error
          "[4]document not found for the given version: version is not valid for this identifier") ∧
      (rec.CoreDocument.DocumentIdentifier = documentID →
        GetVersion repo documentID version = .ok rec) := by
  constructor
  · intro hne
    simp [GetVersion, hrec, hne]
  · intro heq
    simp [GetVersion, hrec, heq]

/-- Witness of C12: the repository of the test of the invalid version, asked for document
`[1]` and for document `[8]` at version `[9]`. -/
theorem getVersion_rejects_unrelated_record_witness :
    GetVersion otherRepo [1] [9] = .error
        "[4]document not found for the given version: version is not valid for this identifier" ∧
      GetVersion otherRepo [8] [9]
        = .ok { OrderAmount := 42,
                CoreDocument := { DocumentIdentifier := [8], CurrentVersion := [9] } } :=
  ⟨(getVersion_rejects_unrelated_record otherRepo [1] [9]
      { OrderAmount := 42,
        CoreDocument := { DocumentIdentifier := [8], CurrentVersion := [9] } } rfl).1
      (by decide),
    (getVersion_rejects_unrelated_record otherRepo [8] [9]
      { OrderAmount := 42,
        CoreDocument := { DocumentIdentifier := [8], CurrentVersion := [9] } } rfl).2 rfl⟩

end purchaseorder

end Centrifuge
